import Mathlib

/-!
# A verification model of the minilustre front end

This file is a shallow embedding, in Lean 4, of the minilustre compiler
front end: the streaming tokenizer (lexer.go), the recursive-descent
parser (parser.go), the AST with its textual rendering (the Stringer
implementations), and the AST-to-IR lowering pass (compiler.go).

Modelling conventions:
* Go byte streams are lists of characters; byte offsets are computed with
  `Char.utf8Size`.
* Go `error` values are strings; a Go `panic` is modelled as a separate
  error constructor, since a panic aborts the process rather than being
  returned to the caller.
* Go maps keyed by strings are modelled as association lists where a later
  insertion shadows an earlier one (`mapInsert` conses, `mapLookup` takes
  the first hit).  Go's map iteration order is unspecified; functions that
  iterate over a map are therefore stated over an arbitrary permutation of
  the insertion-order list where that matters.
* The token channel delivers items in production order; a receive from the
  closed channel yields the zero value `{ typ = itemEOF, value = "" }`,
  which is how the parser is modelled on an exhausted token list.
-/

set_option maxHeartbeats 1000000
set_option linter.unusedVariables false

/-- The kinds of lexical items (`itemType` in lexer.go).  The first
constructor is the Go zero value. -/
inductive itemType
  | eof | keyword | ident | number | strLit | op
  | lparen | rparen | colon | semi | comma | eq
deriving DecidableEq, Repr

/-- The `itemType.String` (lexer.go). -/
def itemTypeStr : itemType → String
  | .eof => "EOF"
  | .keyword => "Keyword"
  | .ident => "Ident"
  | .number => "Number"
  | .strLit => "String"
  | .op => "Op"
  | .lparen => "Lparen"
  | .rparen => "Rparen"
  | .colon => "Colon"
  | .semi => "Semi"
  | .comma => "Comma"
  | .eq => "Eq"

/-- A lexical item (`item` in lexer.go): a kind together with the source
text of the token. -/
structure item where
  typ : itemType
  value : String
deriving DecidableEq, Repr

/-- The `(*item).String`: `Typ 'value'`. -/
def itemStr (it : item) : String :=
  itemTypeStr it.typ ++ " \x27" ++ it.value ++ "\x27"

/-- Go `%v` formatting of an `item` passed *by value*: `item` only has a
pointer-receiver `String` method, so the value does not satisfy
`fmt.Stringer` and `fmt` falls back to the default struct format
`{Kind value}` (with the kind itself rendered through `itemType.String`). -/
def itemGoFmt (it : item) : String :=
  "\x7b" ++ itemTypeStr it.typ ++ " " ++ it.value ++ "\x7d"

/-- The fixed keyword set (the `keyword*` constants in lexer.go), in the
order of the `switch` in `keywordOrIdent`. -/
def keywords : List String :=
  ["if", "let", "and", "bool", "float", "const", "else", "end", "false",
   "int", "node", "not", "or", "returns", "string", "tel", "then", "true",
   "unit", "var", "fby"]

/-- The `isIdent` (lexer.go): underscore, letter or digit.  Go's
`unicode.IsLetter` is modelled by `Char.isAlpha`; the two agree on the
ASCII fragment used throughout. -/
def isIdentChar (c : Char) : Bool :=
  c = '_' || c.isAlpha || c.isDigit

/-- The whitespace characters skipped by `lexer.next`. -/
def isWs (c : Char) : Bool :=
  c = '\n' || c = '\t' || c = ' ' || c = '\r'

/-- The `bufio.ReadString('"')` as used by `lexer.quoted`: split the input at
the first `"` , returning the content before it and the remainder after
it, or `none` when the delimiter never occurs (the `io.EOF` case). -/
def breakOnQuote : List Char → Option (List Char × List Char)
  | [] => none
  | c :: cs =>
    if c = '"' then some ([], cs)
    else (breakOnQuote cs).map (fun p => (c :: p.1, p.2))

theorem breakOnQuote_length {cs a b : List Char}
    (h : breakOnQuote cs = some (a, b)) : b.length ≤ cs.length := by
  induction cs generalizing a b with
  | nil => simp [breakOnQuote] at h
  | cons c cs ih =>
    unfold breakOnQuote at h
    by_cases hc : c = '"'
    · simp [hc] at h
      simp [← h.2]
    · simp only [if_neg hc, Option.map_eq_some'] at h
      obtain ⟨⟨p1, p2⟩, hp, hab⟩ := h
      have hrec := ih hp
      have hb : b = p2 := by
        have := congrArg Prod.snd hab
        simpa using this.symm
      subst hb
      simp
      omega

/-- Byte size of a character run (the amount `lexer.pos` advances while
scanning it). -/
def runBytes (cs : List Char) : Nat :=
  (cs.map Char.utf8Size).sum

/-- The tokenizer main loop (`lexer.next` driven by `lexer.lex`): produce
the whole item sequence, terminated by the EOF item, or stop at the first
lexical error.  `pos` is the running byte offset `lexer.pos`.

Error faithfulness: an unterminated string returns the `io.EOF` error of
`bufio.ReadString`, modelled as the string `"EOF"`; `ReadString` does not
advance `lexer.pos`, so after a string literal the offset has only
advanced over the opening quote, as in the source.  An unrecognized
character reports the offset *after* reading that character. -/
def lexAll : (cs : List Char) → (pos : Nat) → Except String (List item)
  | [], _ => .ok [⟨.eof, ""⟩]
  | c :: cs, pos =>
    if c = '(' then (lexAll cs (pos + 1)).map (⟨.lparen, "("⟩ :: ·)
    else if c = ')' then (lexAll cs (pos + 1)).map (⟨.rparen, ")"⟩ :: ·)
    else if c = ':' then (lexAll cs (pos + 1)).map (⟨.colon, ":"⟩ :: ·)
    else if c = ';' then (lexAll cs (pos + 1)).map (⟨.semi, ";"⟩ :: ·)
    else if c = ',' then (lexAll cs (pos + 1)).map (⟨.comma, ","⟩ :: ·)
    else if c = '=' then (lexAll cs (pos + 1)).map (⟨.eq, "="⟩ :: ·)
    else if c = '"' then
      match h : breakOnQuote cs with
      | none => .error "EOF"
      | some (content, rest) =>
        (lexAll rest (pos + 1)).map (⟨.strLit, String.mk content⟩ :: ·)
    else if c = '+' || c = '-' || c = '<' || c = '>' then
      (lexAll cs (pos + 1)).map (⟨.op, String.singleton c⟩ :: ·)
    else if isWs c then lexAll cs (pos + 1)
    else if hdig : c.isDigit then
      let run := (c :: cs).takeWhile Char.isDigit
      let rest := (c :: cs).dropWhile Char.isDigit
      (lexAll rest (pos + runBytes run)).map (⟨.number, String.mk run⟩ :: ·)
    else if hid : isIdentChar c then
      let run := (c :: cs).takeWhile isIdentChar
      let rest := (c :: cs).dropWhile isIdentChar
      let t : itemType := if keywords.contains (String.mk run) then .keyword else .ident
      (lexAll rest (pos + runBytes run)).map (⟨t, String.mk run⟩ :: ·)
    else
      .error ("minilustre: unexpected character \x27" ++ String.singleton c ++
        "\x27 at offset " ++ toString (pos + c.utf8Size))
  termination_by cs _ => cs.length
  decreasing_by
    · simp
    · simp
    · simp
    · simp
    · simp
    · simp
    · have := breakOnQuote_length h; simp; omega
    · simp
    · simp
    · simp only [List.dropWhile, hdig, List.length_cons]
      have := (List.dropWhile_sublist (l := cs) Char.isDigit).length_le
      omega
    · simp only [List.dropWhile, hid, List.length_cons]
      have := (List.dropWhile_sublist (l := cs) isIdentChar).length_le
      omega

/-! ## The AST data model and its textual rendering (the Stringer
implementations accompanying the AST). -/

/-- Source-language types (`Type` in the AST; that word is reserved in
Lean, hence `Ty`).  Constructors mirror `TypeUnit .. TypeString`. -/
inductive Ty
  | unit | bool | int | float | str
deriving DecidableEq, Repr

/-- The `Type.String`. -/
def tyStr : Ty → String
  | .unit => "unit"
  | .bool => "bool"
  | .int => "int"
  | .float => "float"
  | .str => "string"

/-- The dynamic value held by an `ExprConst` (an `interface{}` in Go).
The parser only ever builds int, bool and string constants; float
literals are unimplemented. -/
inductive ConstVal
  | int (n : Int) | bool (b : Bool) | str (s : String)
deriving DecidableEq, Repr

/-- The `BinOp` with constructors `BinOpMinus .. BinOpFby`. -/
inductive BinOp
  | minus | plus | gt | lt | fby
deriving DecidableEq, Repr

/-- The `BinOp.String`. -/
def binOpStr : BinOp → String
  | .minus => "-"
  | .plus => "+"
  | .gt => ">"
  | .lt => "<"
  | .fby => "fby"

/-- The closed `Expr` variant set: `ExprCall`, `ExprConst`, `ExprVar`,
`ExprTuple`, `ExprBinOp`, `ExprIf`. -/
inductive Expr
  | call (name : String) (args : List Expr)
  | const (v : ConstVal)
  | var (name : String)
  | tuple (l : List Expr)
  | binOp (op : BinOp) (left right : Expr)
  | ifE (cond body els : Expr)

/-- Go `%#v` formatting of a constant's dynamic value, as used by
`ExprConst.String`: ints print in decimal, bools as `true`/`false`,
strings in Go quoted syntax. -/
def goEscapeChar (c : Char) : String :=
  if c = '\\' then "\\\\"
  else if c = '"' then "\\\""
  else if c = '\n' then "\\n"
  else if c = '\t' then "\\t"
  else if c = '\r' then "\\r"
  else String.singleton c

/-- Go `strconv.Quote`-style string rendering (modelled for the printable
ASCII fragment plus the escapes above). -/
def goQuote (s : String) : String :=
  "\"" ++ String.join (s.toList.map goEscapeChar) ++ "\""

/-- The `ExprConst.String` = `fmt.Sprintf("%#v", value)`. -/
def constGoFmt : ConstVal → String
  | .int n => toString n
  | .bool b => if b then "true" else "false"
  | .str s => goQuote s

mutual
/-- The `String` methods of the `Expr` variants. -/
def exprString : Expr → String
  | .call name args => name ++ "(" ++ exprListString args ++ ")"
  | .const v => constGoFmt v
  | .var n => n
  | .tuple l => "(" ++ exprListString l ++ ")"
  | .binOp op l r => exprString l ++ " " ++ binOpStr op ++ " " ++ exprString r
  | .ifE c b e =>
    "if " ++ exprString c ++ " then " ++ exprString b ++ " else " ++ exprString e

/-- The `strings.Join(l, ", ")` over rendered subexpressions. -/
def exprListString : List Expr → String
  | [] => ""
  | [e] => exprString e
  | e :: rest => exprString e ++ ", " ++ exprListString rest
end

/-- The `Assign`: one equation, destinations (length ≥ 1 from the parser,
longer only via tuple-destructuring syntax) and the bound expression. -/
structure Assign where
  dst : List String
  body : Expr

/-- The `(*Assign).String`. -/
def assignString (a : Assign) : String :=
  let dst := String.intercalate ", " a.dst
  (if a.dst.length > 1 then "(" ++ dst ++ ")" else dst) ++ " = " ++ exprString a.body

/-- The `assignListString`. -/
def assignListString (l : List Assign) : String :=
  String.intercalate "\n" (l.map (fun a => "\t" ++ assignString a ++ ";")) ++ "\n"

/-- Go `map[string]Type` modelled as an insertion-ordered association
list with pairwise-distinct keys (the parser rejects duplicates).
`paramMapString` renders in the order of the list it is given; since a Go
map's iteration order is unspecified, a concrete program run corresponds
to applying this to *some* permutation of the insertion-order list. -/
def paramMapString (params : List (String × Ty)) : String :=
  String.intercalate "; " (params.map (fun p => p.1 ++ ": " ++ tyStr p.2))

/-- The `Node`: name, in/out/local parameter maps, equation body. -/
structure Node where
  name : String
  inParams : List (String × Ty)
  outParams : List (String × Ty)
  localParams : List (String × Ty)
  body : List Assign

/-- The `(*Node).String`.  Note the source renders only the in and out
parameter maps; the `var` section (`localParams`) is never printed. -/
def nodeString (n : Node) : String :=
  "node " ++ n.name ++ " (" ++ paramMapString n.inParams ++ ") returns (" ++
    paramMapString n.outParams ++ ");\n" ++ "let\n" ++
    assignListString n.body ++ "tel\n"

/-- The `File`: the ordered list of nodes. -/
structure File where
  nodes : List Node

/-- The `(*File).String`. -/
def fileString (f : File) : String :=
  String.intercalate "\n" (f.nodes.map nodeString)

/-! ## The recursive-descent parser (parser.go)

The parser consumes the token channel; its state is the remaining token
sequence (the buffered lookahead `cur` is the head).  Each parsing
function returns the unconsumed remainder together with a length bound
used for termination.  A Go `error` return is `.goErr`; the `panic` in
`parser.expr` is `.goPanic`. -/

/-- A returned Go error versus a process-aborting panic. -/
inductive PErr
  | goErr (msg : String) | goPanic (msg : String)
deriving DecidableEq, Repr

/-- The `parser.peek`: receive (buffered) the next token.  On a closed
channel (exhausted list) the receive yields the zero-value item. -/
def peekTok : List item → item
  | [] => ⟨.eof, ""⟩
  | it :: _ => it

/-- The `parser.peekItem`: check the lookahead's kind without consuming. -/
def peekItemE (t : itemType) (l : List item) : Except PErr String :=
  let it := peekTok l
  if it.typ = t then .ok it.value
  else .error (.goErr ("minilustre: expected token " ++ itemTypeStr t ++
    ", got " ++ itemGoFmt it))

theorem peekItemE_nil_ok {t s} (h : peekItemE t [] = .ok s) : t = itemType.eof := by
  simp only [peekItemE, peekTok] at h
  split at h
  · next heq => exact heq.symm
  · exact absurd h (by simp)

/-- The `parser.acceptItem`: `peekItem` then `accept`.  The bound records
that on success a token was consumed, except for the EOF kind succeeding
on the closed channel. -/
def acceptItemE (t : itemType) (l : List item) :
    Except PErr (String × { r : List item // r.length < l.length ∨ (l = [] ∧ r = [] ∧ t = .eof) }) :=
  match h : peekItemE t l with
  | .error e => .error e
  | .ok s =>
    .ok (s, ⟨l.tail, by
      cases l with
      | nil => exact Or.inr ⟨rfl, rfl, peekItemE_nil_ok h⟩
      | cons a as => exact Or.inl (by simp)⟩)

theorem acceptNonEof {t : itemType} {l r : List item}
    (h : r.length < l.length ∨ (l = [] ∧ r = [] ∧ t = .eof)) (ht : t ≠ .eof) :
    r.length < l.length :=
  h.resolve_right (fun hp => ht hp.2.2)

/-- The `parser.acceptKeyword`: peek a keyword item and compare its text.  On
a kind mismatch the message formats `p.cur` (a `*item`, hence through its
`String` method); on a text mismatch it formats the keyword text. -/
def acceptKeywordE (kw : String) (l : List item) :
    Except PErr (Unit × { r : List item // r.length < l.length }) :=
  match h : peekItemE .keyword l with
  | .error _ =>
    .error (.goErr ("minilustre: expected keyword " ++ kw ++ ", got " ++
      itemStr (peekTok l)))
  | .ok s =>
    if s = kw then
      .ok ((), ⟨l.tail, by
        cases l with
        | nil => exact absurd (peekItemE_nil_ok h) (by decide)
        | cons a as => simp⟩)
    else
      .error (.goErr ("minilustre: expected keyword " ++ kw ++ ", got " ++ s))

/-- The `parser.typ`: accept a keyword and map it to a `Type`. -/
def typE (l : List item) : Except PErr (Ty × { r : List item // r.length < l.length }) :=
  match acceptItemE .keyword l with
  | .error e => .error e
  | .ok (s, ⟨r, hr⟩) =>
    have hb : r.length < l.length := acceptNonEof hr (by simp)
    match s with
    | "unit" => .ok (.unit, ⟨r, hb⟩)
    | "bool" => .ok (.bool, ⟨r, hb⟩)
    | "float" => .ok (.float, ⟨r, hb⟩)
    | "int" => .ok (.int, ⟨r, hb⟩)
    | "string" => .ok (.str, ⟨r, hb⟩)
    | _ => .error (.goErr ("minilustre: expected a type, got \x27" ++ s ++ "\x27"))

/-- Lookup in an association-list-modelled Go map. -/
def mapLookup (m : List (String × α)) (k : String) : Option α :=
  (m.find? (fun p => p.1 = k)).map Prod.snd

/-- The name-collecting loop at the start of `parser.param`:
`IDENT ("," IDENT)*`, stopping without consuming at the first
non-identifier or missing comma. -/
def pNames (l : List item) : List String × { r : List item // r.length ≤ l.length } :=
  match acceptItemE .ident l with
  | .error _ => ([], ⟨l, le_refl _⟩)
  | .ok (name, ⟨r1, h1⟩) =>
    have hs1 : r1.length < l.length := acceptNonEof h1 (by simp)
    match acceptItemE .comma r1 with
    | .error _ => ([name], ⟨r1, le_of_lt hs1⟩)
    | .ok (_, ⟨r2, h2⟩) =>
      have hs2 : r2.length < r1.length := acceptNonEof h2 (by simp)
      match pNames r2 with
      | (names, ⟨r3, h3⟩) => (name :: names, ⟨r3, by omega⟩)
  termination_by l.length
  decreasing_by omega

/-- The duplicate-checking insertion loop at the end of `parser.param`:
each name must be absent from the map built so far. -/
def insertParams (params : List (String × Ty)) (t : Ty) :
    List String → Except PErr (List (String × Ty))
  | [] => .ok params
  | n :: rest =>
    if (mapLookup params n).isSome then
      .error (.goErr ("minilustre: duplicate parameter name \x27" ++ n ++ "\x27"))
    else insertParams (params ++ [(n, t)]) t rest

/-- The `parser.param`: names, colon, type; returns `false` (no further
parameter group) when no name is present. -/
def pParamE (params : List (String × Ty)) (l : List item) :
    Except PErr ((Bool × List (String × Ty)) × { r : List item // r.length ≤ l.length }) :=
  match pNames l with
  | (names, ⟨r1, h1⟩) =>
    if names.isEmpty then .ok ((false, params), ⟨r1, h1⟩)
    else
      match acceptItemE .colon r1 with
      | .error e => .error e
      | .ok (_, ⟨r2, h2⟩) =>
        match typE r2 with
        | .error e => .error e
        | .ok (t, ⟨r3, h3⟩) =>
          match insertParams params t names with
          | .error e => .error e
          | .ok ps =>
            .ok ((true, ps), ⟨r3, by
              have := acceptNonEof h2 (by simp)
              omega⟩)

/-- The `parser.paramList`: parameter groups separated by `;`, stopping when
a group is empty or the separator is missing. -/
def pParamListE (l : List item) (params : List (String × Ty)) :
    Except PErr (List (String × Ty) × { r : List item // r.length ≤ l.length }) :=
  match pParamE params l with
  | .error e => .error e
  | .ok ((false, ps), ⟨r1, h1⟩) => .ok (ps, ⟨r1, h1⟩)
  | .ok ((true, ps), ⟨r1, h1⟩) =>
    match acceptItemE .semi r1 with
    | .error _ => .ok (ps, ⟨r1, h1⟩)
    | .ok (_, ⟨r2, h2⟩) =>
      have hs : r2.length < l.length := by
        have := acceptNonEof h2 (by simp)
        omega
      match pParamListE r2 ps with
      | .error e => .error e
      | .ok (ps2, ⟨r3, h3⟩) => .ok (ps2, ⟨r3, by omega⟩)
  termination_by l.length
  decreasing_by omega

/-- The `strconv.Atoi` on the text of a number token.  The tokenizer only
produces decimal digit runs; syntax and 64-bit range errors are modelled
with Go's error strings. -/
def goAtoi (s : String) : Except String Int :=
  match s.toNat? with
  | none => .error ("strconv.Atoi: parsing \"" ++ s ++ "\": invalid syntax")
  | some n =>
    if n ≤ 9223372036854775807 then .ok (Int.ofNat n)
    else .error ("strconv.Atoi: parsing \"" ++ s ++ "\": value out of range")

mutual
/-- The `parser.exprMember`: parenthesized group or tuple, call or variable,
number, `true`/`false`, or string literal.  Faithful detail: the
single-element parenthesized-group branch returns *without* consuming the
closing parenthesis, exactly as the source does. -/
def exprMemberE (l : List item) :
    Except PErr (Expr × { r : List item // r.length < l.length }) :=
  match acceptItemE .lparen l with
  | .ok (_, ⟨r1, h1⟩) =>
    have hs1 : r1.length < l.length := acceptNonEof h1 (by simp)
    (match exprE r1 with
     | .error e => .error e
     | .ok (e, ⟨r2, h2⟩) =>
       match acceptItemE .comma r2 with
       | .ok (_, ⟨r3, h3⟩) =>
         have hs3 : r3.length < l.length := by
           have := acceptNonEof h3 (by simp)
           omega
         (match tupleRestE r3 with
          | .error e2 => .error e2
          | .ok (es, ⟨r4, h4⟩) =>
            match acceptItemE .rparen r4 with
            | .error e2 => .error e2
            | .ok (_, ⟨r5, h5⟩) =>
              .ok (.tuple (e :: es), ⟨r5, by
                have := acceptNonEof h5 (by simp)
                omega⟩))
       | .error _ => .ok (e, ⟨r2, by omega⟩))
  | .error _ =>
    match acceptItemE .ident l with
    | .ok (name, ⟨r1, h1⟩) =>
      have hs1 : r1.length < l.length := acceptNonEof h1 (by simp)
      (match acceptItemE .lparen r1 with
       | .ok (_, ⟨r2, h2⟩) =>
         have hs2 : r2.length < l.length := by
           have := acceptNonEof h2 (by simp)
           omega
         (match exprListE r2 with
          | .error e => .error e
          | .ok (args, ⟨r3, h3⟩) =>
            match acceptItemE .rparen r3 with
            | .error e => .error e
            | .ok (_, ⟨r4, h4⟩) =>
              .ok (.call name args, ⟨r4, by
                have := acceptNonEof h4 (by simp)
                omega⟩))
       | .error _ => .ok (.var name, ⟨r1, hs1⟩))
    | .error _ =>
      match acceptItemE .number l with
      | .ok (s, ⟨r1, h1⟩) =>
        (match goAtoi s with
         | .error e => .error (.goErr e)
         | .ok i => .ok (.const (.int i), ⟨r1, acceptNonEof h1 (by simp)⟩))
      | .error _ =>
        match acceptKeywordE "true" l with
        | .ok (_, ⟨r1, h1⟩) => .ok (.const (.bool true), ⟨r1, h1⟩)
        | .error _ =>
          match acceptKeywordE "false" l with
          | .ok (_, ⟨r1, h1⟩) => .ok (.const (.bool false), ⟨r1, h1⟩)
          | .error _ =>
            match acceptItemE .strLit l with
            | .ok (s, ⟨r1, h1⟩) =>
              .ok (.const (.str s), ⟨r1, acceptNonEof h1 (by simp)⟩)
            | .error _ =>
              .error (.goErr ("minilustre: expected an expression, got " ++
                itemStr (peekTok l)))
  termination_by (l.length, 0)

/-- The `parser.expr`: a member, optionally followed by `fby` or an operator
symbol and the parse of the *entire* remaining expression
(right-recursive, no precedence).  An operator other than `+`/`-`
(i.e. `<` or `>`) reaches the `default` arm of the switch: a panic. -/
def exprE (l : List item) :
    Except PErr (Expr × { r : List item // r.length < l.length }) :=
  match exprMemberE l with
  | .error e => .error e
  | .ok (e1, ⟨r1, h1⟩) =>
    match acceptKeywordE "fby" r1 with
    | .ok (_, ⟨r2, h2⟩) =>
      have hs2 : r2.length < l.length := by omega
      (match exprE r2 with
       | .error e => .error e
       | .ok (e2, ⟨r3, h3⟩) => .ok (.binOp .fby e1 e2, ⟨r3, by omega⟩))
    | .error _ =>
      match acceptItemE .op r1 with
      | .ok (s, ⟨r2, h2⟩) =>
        have hs2 : r2.length < l.length := by
          have := acceptNonEof h2 (by simp)
          omega
        (match exprE r2 with
         | .error e => .error e
         | .ok (e2, ⟨r3, h3⟩) =>
           match s with
           | "+" => .ok (.binOp .plus e1 e2, ⟨r3, by omega⟩)
           | "-" => .ok (.binOp .minus e1 e2, ⟨r3, by omega⟩)
           | _ => .error (.goPanic ("unknown binary operation \x27" ++ s ++ "\x27")))
      | .error _ => .ok (e1, ⟨r1, h1⟩)
  termination_by (l.length, 1)

/-- The `parser.exprList`: `expr ("," expr)*`, propagating the first error
(the `e == nil` break in the source is unreachable: `expr` never returns
a nil expression with a nil error). -/
def exprListE (l : List item) :
    Except PErr (List Expr × { r : List item // r.length < l.length }) :=
  match exprE l with
  | .error e => .error e
  | .ok (e, ⟨r1, h1⟩) =>
    match acceptItemE .comma r1 with
    | .error _ => .ok ([e], ⟨r1, h1⟩)
    | .ok (_, ⟨r2, h2⟩) =>
      have hs2 : r2.length < l.length := by
        have := acceptNonEof h2 (by simp)
        omega
      match exprListE r2 with
      | .error e2 => .error e2
      | .ok (es, ⟨r3, h3⟩) => .ok (e :: es, ⟨r3, by omega⟩)
  termination_by (l.length, 2)

/-- The inline destructuring loop in `parser.exprMember`'s tuple branch:
further `expr ("," expr)*` elements after the first comma. -/
def tupleRestE (l : List item) :
    Except PErr (List Expr × { r : List item // r.length < l.length }) :=
  match exprE l with
  | .error e => .error e
  | .ok (e, ⟨r1, h1⟩) =>
    match acceptItemE .comma r1 with
    | .error _ => .ok ([e], ⟨r1, h1⟩)
    | .ok (_, ⟨r2, h2⟩) =>
      have hs2 : r2.length < l.length := by
        have := acceptNonEof h2 (by simp)
        omega
      match tupleRestE r2 with
      | .error e2 => .error e2
      | .ok (es, ⟨r3, h3⟩) => .ok (e :: es, ⟨r3, by omega⟩)
  termination_by (l.length, 3)
end

/-- The destination-name loop in `parser.assign`'s tuple-destructuring
branch: here a missing identifier is a hard error. -/
def pAssignDsts (l : List item) :
    Except PErr (List String × { r : List item // r.length ≤ l.length }) :=
  match acceptItemE .ident l with
  | .error e => .error e
  | .ok (name, ⟨r1, h1⟩) =>
    have hs1 : r1.length < l.length := acceptNonEof h1 (by simp)
    match acceptItemE .comma r1 with
    | .error _ => .ok ([name], ⟨r1, le_of_lt hs1⟩)
    | .ok (_, ⟨r2, h2⟩) =>
      have hs2 : r2.length < r1.length := acceptNonEof h2 (by simp)
      match pAssignDsts r2 with
      | .error e => .error e
      | .ok (names, ⟨r3, h3⟩) => .ok (name :: names, ⟨r3, by omega⟩)
  termination_by l.length
  decreasing_by omega

/-- The tail of `parser.assign` shared by both destination forms: `=`,
then the bound expression. -/
def pAssignTail (dst : List String) (l : List item) :
    Except PErr (Assign × { r : List item // r.length ≤ l.length }) :=
  match acceptItemE .eq l with
  | .error e => .error e
  | .ok (_, ⟨r1, h1⟩) =>
    have hs1 : r1.length < l.length := acceptNonEof h1 (by simp)
    match exprE r1 with
    | .error e => .error e
    | .ok (e, ⟨r2, h2⟩) => .ok (⟨dst, e⟩, ⟨r2, by omega⟩)

/-- The `parser.assign`: `(IDENT, ...)` or bare `IDENT`, `=`, expression.  A
`none` result is Go's `(nil, nil)`: no further assignment follows. -/
def pAssignE (l : List item) :
    Except PErr (Option Assign × { r : List item // r.length ≤ l.length }) :=
  match acceptItemE .lparen l with
  | .ok (_, ⟨r1, h1⟩) =>
    have hs1 : r1.length < l.length := acceptNonEof h1 (by simp)
    (match pAssignDsts r1 with
     | .error e => .error e
     | .ok (dst, ⟨r2, h2⟩) =>
       match acceptItemE .rparen r2 with
       | .error e => .error e
       | .ok (_, ⟨r3, h3⟩) =>
         match pAssignTail dst r3 with
         | .error e => .error e
         | .ok (a, ⟨r4, h4⟩) =>
           .ok (some a, ⟨r4, by
             have := acceptNonEof h3 (by simp)
             omega⟩))
  | .error _ =>
    match acceptItemE .ident l with
    | .error _ => .ok (none, ⟨l, le_refl _⟩)
    | .ok (name, ⟨r1, h1⟩) =>
      have hs1 : r1.length < l.length := acceptNonEof h1 (by simp)
      match pAssignTail [name] r1 with
      | .error e => .error e
      | .ok (a, ⟨r2, h2⟩) => .ok (some a, ⟨r2, by omega⟩)

/-- The `parser.assignList`: `(assign ";")*`, ending at the first missing
assignment or separator. -/
def pAssignListE (l : List item) :
    Except PErr (List Assign × { r : List item // r.length ≤ l.length }) :=
  match pAssignE l with
  | .error e => .error e
  | .ok (none, ⟨r1, h1⟩) => .ok ([], ⟨r1, h1⟩)
  | .ok (some a, ⟨r1, h1⟩) =>
    match acceptItemE .semi r1 with
    | .error _ => .ok ([a], ⟨r1, h1⟩)
    | .ok (_, ⟨r2, h2⟩) =>
      have hs : r2.length < l.length := by
        have := acceptNonEof h2 (by simp)
        omega
      match pAssignListE r2 with
      | .error e => .error e
      | .ok (as, ⟨r3, h3⟩) => .ok (a :: as, ⟨r3, by omega⟩)
  termination_by l.length
  decreasing_by omega

/-- The shared tail of `parser.node`: `let`, the equation list, `tel`,
and construction of the `Node` value (`localParams` stays nil when there
is no `var` section). -/
def pNodeFinish (name : String) (inParams outParams localParams : List (String × Ty))
    (l : List item) :
    Except PErr (Node × { r : List item // r.length ≤ l.length }) :=
  match acceptKeywordE "let" l with
  | .error e => .error e
  | .ok (_, ⟨r1, h1⟩) =>
  match pAssignListE r1 with
  | .error e => .error e
  | .ok (body, ⟨r2, h2⟩) =>
  match acceptKeywordE "tel" r2 with
  | .error e => .error e
  | .ok (_, ⟨r3, h3⟩) =>
    .ok (⟨name, inParams, outParams, localParams, body⟩, ⟨r3, by omega⟩)

/-- The `parser.node`: the full node production, including the zero-output
check (whose error string reproduces the missing `fmt.Errorf` argument:
Go renders the unmatched `%v` as `%!v(MISSING)`) and the optional `var`
section. -/
def pNodeE (l : List item) :
    Except PErr (Node × { r : List item // r.length < l.length }) :=
  match acceptKeywordE "node" l with
  | .error e => .error e
  | .ok (_, ⟨r1, h1⟩) =>
  match acceptItemE .ident r1 with
  | .error e => .error e
  | .ok (name, ⟨r2, h2⟩) =>
  have hb2 : r2.length < r1.length := acceptNonEof h2 (by simp)
  match acceptItemE .lparen r2 with
  | .error e => .error e
  | .ok (_, ⟨r3, h3⟩) =>
  have hb3 : r3.length < r2.length := acceptNonEof h3 (by simp)
  match pParamListE r3 [] with
  | .error e => .error e
  | .ok (inParams, ⟨r4, h4⟩) =>
  match acceptItemE .rparen r4 with
  | .error e => .error e
  | .ok (_, ⟨r5, h5⟩) =>
  have hb5 : r5.length < r4.length := acceptNonEof h5 (by simp)
  match acceptKeywordE "returns" r5 with
  | .error e => .error e
  | .ok (_, ⟨r6, h6⟩) =>
  match acceptItemE .lparen r6 with
  | .error e => .error e
  | .ok (_, ⟨r7, h7⟩) =>
  have hb7 : r7.length < r6.length := acceptNonEof h7 (by simp)
  match pParamListE r7 [] with
  | .error e => .error e
  | .ok (outParams, ⟨r8, h8⟩) =>
  if outParams.isEmpty then
    .error (.goErr "minilustre: \x27%!v(MISSING)\x27 doesn\x27t have any out parameter")
  else
  match acceptItemE .rparen r8 with
  | .error e => .error e
  | .ok (_, ⟨r9, h9⟩) =>
  have hb9 : r9.length < r8.length := acceptNonEof h9 (by simp)
  match acceptItemE .semi r9 with
  | .error e => .error e
  | .ok (_, ⟨r10, h10⟩) =>
  have hb10 : r10.length < r9.length := acceptNonEof h10 (by simp)
  match acceptKeywordE "var" r10 with
  | .ok (_, ⟨r11, h11⟩) =>
    (match pParamListE r11 [] with
     | .error e => .error e
     | .ok (localParams, ⟨r12, h12⟩) =>
       match pNodeFinish name inParams outParams localParams r12 with
       | .error e => .error e
       | .ok (n, ⟨r13, h13⟩) => .ok (n, ⟨r13, by omega⟩))
  | .error _ =>
    match pNodeFinish name inParams outParams [] r10 with
    | .error e => .error e
    | .ok (n, ⟨r13, h13⟩) => .ok (n, ⟨r13, by omega⟩)

/-- The `parser.parse`: nodes until an EOF item is accepted. -/
def pFileE (l : List item) :
    Except PErr (List Node × { r : List item // r.length ≤ l.length }) :=
  match pNodeE l with
  | .error e => .error e
  | .ok (n, ⟨r1, h1⟩) =>
    match acceptItemE .eof r1 with
    | .ok (_, ⟨r2, h2⟩) => .ok ([n], ⟨r2, by
        rcases h2 with h2 | ⟨he, hr, _⟩
        · omega
        · subst he hr; simp⟩)
    | .error _ =>
      match pFileE r1 with
      | .error e => .error e
      | .ok (ns, ⟨r3, h3⟩) => .ok (n :: ns, ⟨r3, by omega⟩)
  termination_by l.length
  decreasing_by omega

/-! ### The public parsing functions (subtype bounds stripped). -/

/-- The `parser.expr` as a plain function from token sequences. -/
def pExpr (l : List item) : Except PErr (Expr × List item) :=
  (exprE l).map (fun p => (p.1, p.2.val))

/-- The `parser.exprMember` as a plain function. -/
def pExprMember (l : List item) : Except PErr (Expr × List item) :=
  (exprMemberE l).map (fun p => (p.1, p.2.val))

/-- The `parser.paramList` as a plain function (starting, as in
`parser.node`, from an empty parameter map). -/
def pParamList (l : List item) : Except PErr (List (String × Ty) × List item) :=
  (pParamListE l []).map (fun p => (p.1, p.2.val))

/-- The `parser.assign` as a plain function. -/
def pAssign (l : List item) : Except PErr (Option Assign × List item) :=
  (pAssignE l).map (fun p => (p.1, p.2.val))

/-- The `parser.node` as a plain function. -/
def pNode (l : List item) : Except PErr (Node × List item) :=
  (pNodeE l).map (fun p => (p.1, p.2.val))

/-- The `parser.parse` as a plain function. -/
def pFile (l : List item) : Except PErr File :=
  (pFileE l).map (fun p => ⟨p.1⟩)

/-- The `Parse` (parser.go): lexing and parsing coupled by the token channel.
The tokens the parser consumes are exactly the lexer's output in
production order; on the return path a lexer error takes priority
(`Parse` checks `l.lex()`'s error before the parser goroutine's). -/
def ParseText (cs : List Char) : Except PErr File :=
  match lexAll cs 0 with
  | .error e => .error (.goErr e)
  | .ok toks => pFile toks

/-! ## Lowering / code generation (compiler.go)

The target module is modelled by the list of lowered functions plus a
lowering state: the module-level globals (with a fresh-id counter
standing for object identity of unnamed globals) and the instruction
list of the current entry block.  `value.Value` is modelled by the
`Value` inductive, one constructor per kind of value the compiler
creates. -/

/-- The llir/llvm types the compiler uses (`compiler.typ` plus struct
and pointer types arising from globals). -/
inductive LTy
  | void | i1 | i32 | float | i8ptr | i64
  | strukt (fields : List LTy)
  | ptr (pointee : LTy)

/-- The `compiler.typ`: source type → machine type (the `panic` default is
unreachable: `Ty` is closed). -/
def cTyp : Ty → LTy
  | .unit => .void
  | .bool => .i1
  | .int => .i32
  | .float => .float
  | .str => .i8ptr

/-- The `value.Value`s created during lowering: function parameters,
integer constants, pointers into string globals (the GEP result), call
results, undefs, tuple globals, and arithmetic/comparison/select
instruction results. -/
inductive Value
  | param (name : String) (t : LTy)
  | intC (t : LTy) (v : Int)
  | strPtr (gid : Nat)
  | callV (fn : String) (args : List Value)
  | undef (t : LTy)
  | tupleG (gid : Nat) (t : LTy)
  | sub (l r : Value)
  | add (l r : Value)
  | icmpSGT (l r : Value)
  | icmpSLT (l r : Value)
  | select (c b e : Value)

/-- The `Value.Type()` as llir computes it: parameters and constants carry
their type, a call has its callee's return type (every function this
compiler creates returns void), globals are pointers to their content,
arithmetic takes the left operand's type, comparisons are `i1`, select
takes the type of its first branch. -/
def Value.lty : Value → LTy
  | .param _ t => t
  | .intC t _ => t
  | .strPtr _ => .i8ptr
  | .callV _ _ => .void
  | .undef t => t
  | .tupleG _ t => .ptr t
  | .sub l _ => l.lty
  | .add l _ => l.lty
  | .icmpSGT _ _ => .i1
  | .icmpSLT _ _ => .i1
  | .select _ b _ => b.lty

/-- Module-level unnamed globals: a private null-terminated string
constant, or an undef-initialized struct for a tuple. -/
inductive Global
  | strG (content : String)
  | tupleG (t : LTy)

/-- Block instructions emitted by lowering. -/
inductive Instr
  | call (fn : String) (args : List Value)
  | gep (gid : Nat)
  | sub (l r : Value)
  | add (l r : Value)
  | icmpSGT (l r : Value)
  | icmpSLT (l r : Value)
  | select (c b e : Value)
  | ret

/-- The mutable lowering state: module globals (with fresh ids) and the
current entry block's instructions. -/
structure CState where
  globals : List (Nat × Global)
  nextGid : Nat
  instrs : List Instr

mutual
/-- The `compiler.expr`: lower one expression, threading the module/block
state.  Error cases are returned Go errors; the `default` arms of the
source's type switches are unreachable over the closed `Expr`. -/
def compileExpr (funcs : List String) (vars : List (String × Value)) (st : CState) :
    Expr → Except PErr (Value × CState)
  | .call name args =>
    if funcs.contains name then
      match compileArgs funcs vars st args with
      | .error e => .error e
      | .ok (vals, st1) =>
        .ok (.callV name vals, { st1 with instrs := st1.instrs ++ [.call name vals] })
    else .error (.goErr ("minilustre: undefined node \x27" ++ name ++ "\x27"))
  | .const (.bool b) => .ok (.intC .i1 (if b then 1 else 0), st)
  | .const (.int n) => .ok (.intC .i32 n, st)
  | .const (.str s) =>
    let gid := st.nextGid
    .ok (.strPtr gid,
      { globals := st.globals ++ [(gid, .strG s)], nextGid := gid + 1,
        instrs := st.instrs ++ [.gep gid] })
  | .var name =>
    match mapLookup vars name with
    | none => .error (.goErr ("minilustre: referring to undefined variable \x27" ++ name ++ "\x27"))
    | some v => .ok (v, st)
  | .tuple es =>
    match compileArgs funcs vars st es with
    | .error e => .error e
    | .ok (vals, st1) =>
      let t := LTy.strukt (vals.map Value.lty)
      let gid := st1.nextGid
      .ok (.tupleG gid t,
        { globals := st1.globals ++ [(gid, .tupleG t)], nextGid := gid + 1,
          instrs := st1.instrs })
  | .binOp op l r =>
    match compileExpr funcs vars st l with
    | .error e => .error e
    | .ok (lv, st1) =>
      match compileExpr funcs vars st1 r with
      | .error e => .error e
      | .ok (rv, st2) =>
        match op with
        | .minus => .ok (.sub lv rv, { st2 with instrs := st2.instrs ++ [.sub lv rv] })
        | .plus => .ok (.add lv rv, { st2 with instrs := st2.instrs ++ [.add lv rv] })
        | .gt => .ok (.icmpSGT lv rv, { st2 with instrs := st2.instrs ++ [.icmpSGT lv rv] })
        | .lt => .ok (.icmpSLT lv rv, { st2 with instrs := st2.instrs ++ [.icmpSLT lv rv] })
        | .fby => .ok (.intC .i32 0, st2)
  | .ifE c b e =>
    match compileExpr funcs vars st c with
    | .error e2 => .error e2
    | .ok (cv, st1) =>
      match compileExpr funcs vars st1 b with
      | .error e2 => .error e2
      | .ok (bv, st2) =>
        match compileExpr funcs vars st2 e with
        | .error e2 => .error e2
        | .ok (ev, st3) =>
          .ok (.select cv bv ev, { st3 with instrs := st3.instrs ++ [.select cv bv ev] })

/-- The left-to-right argument-lowering loop in the `ExprCall` and
`ExprTuple` cases. -/
def compileArgs (funcs : List String) (vars : List (String × Value)) (st : CState) :
    List Expr → Except PErr (List Value × CState)
  | [] => .ok ([], st)
  | e :: rest =>
    match compileExpr funcs vars st e with
    | .error err => .error err
    | .ok (v, st1) =>
      match compileArgs funcs vars st1 rest with
      | .error err => .error err
      | .ok (vs, st2) => .ok (v :: vs, st2)
end

/-- The `compiler.assign`: lower the body, then bind only `Dst[0]` in the
environment (Go map insertion, modelled by a shadowing cons).  Indexing
an empty destination list would be a Go runtime panic; the parser never
produces one. -/
def compileAssign (funcs : List String) (vars : List (String × Value)) (st : CState)
    (a : Assign) : Except PErr (List (String × Value) × CState) :=
  match compileExpr funcs vars st a.body with
  | .error e => .error e
  | .ok (v, st1) =>
    match a.dst with
    | [] => .error (.goPanic "runtime error: index out of range [0] with length 0")
    | d :: _ => .ok ((d, v) :: vars, st1)

/-- The per-node equation loop in `compiler.node`, including the error
wrapping `failed to compile node '<name>': <err>` (a panic is not
wrapped: it aborts). -/
def compileAssigns (funcs : List String) (nodeName : String)
    (vars : List (String × Value)) (st : CState) :
    List Assign → Except PErr (List (String × Value) × CState)
  | [] => .ok (vars, st)
  | a :: rest =>
    match compileAssign funcs vars st a with
    | .error (.goErr m) =>
      .error (.goErr ("failed to compile node \x27" ++ nodeName ++ "\x27: " ++ m))
    | .error (.goPanic m) => .error (.goPanic m)
    | .ok (vars1, st1) => compileAssigns funcs nodeName vars1 st1 rest

/-- The environment seeded by `compiler.node`: input parameters become
function parameters, output parameters get undef placeholders (inserted
after the inputs, so an output shadows a like-named input); local
parameters are never seeded. -/
def varsSeed (n : Node) : List (String × Value) :=
  n.outParams.foldl (fun m p => (p.1, Value.undef (cTyp p.2)) :: m)
    (n.inParams.foldl (fun m p => (p.1, Value.param p.1 (cTyp p.2)) :: m) [])

/-- One lowered function: name, parameters in emission order, entry
block. -/
structure FuncDef where
  name : String
  params : List (String × LTy)
  body : List Instr

/-- The `compiler.node`: seed the environment, lower the equations into a
fresh entry block, terminate it with `ret void`.  The node's function is
handed back for registration *after* the whole body has been lowered. -/
def compileNode (funcs : List String) (st : CState) (n : Node) :
    Except PErr (FuncDef × CState) :=
  match compileAssigns funcs n.name (varsSeed n) { st with instrs := [] } n.body with
  | .error e => .error e
  | .ok (_, st1) =>
    .ok (⟨n.name, n.inParams.map (fun p => (p.1, cTyp p.2)), st1.instrs ++ [.ret]⟩,
      { st1 with instrs := [] })

/-- The node loop of `Compile`: declaration order, with each node's name
registered in the function table only after `compiler.node` returns. -/
def compileNodes (funcs : List String) (st : CState) :
    List Node → Except PErr (List FuncDef × List String × CState)
  | [] => .ok ([], funcs, st)
  | n :: rest =>
    match compileNode funcs st n with
    | .error e => .error e
    | .ok (fd, st1) =>
      match compileNodes (n.name :: funcs) st1 rest with
      | .error e => .error e
      | .ok (fds, funcs2, st2) => .ok (fd :: fds, funcs2, st2)

/-- The external `print` declaration pre-seeded into every module. -/
def printDecl : FuncDef := ⟨"print", [("str", .i8ptr)], []⟩

/-- The `Compile`: the function table starts with `print`; nodes are lowered
in declaration order into the shared module. -/
def Compile (f : File) : Except PErr (List FuncDef × CState) :=
  match compileNodes ["print"] ⟨[], 0, []⟩ f.nodes with
  | .error e => .error e
  | .ok (fds, _, st) => .ok (printDecl :: fds, st)

/-! ## Helper lemmas about the lowering pass. -/

theorem compileNodes_append (funcs : List String) (st : CState) (l1 l2 : List Node) :
    compileNodes funcs st (l1 ++ l2) =
      match compileNodes funcs st l1 with
      | .error e => .error e
      | .ok (fds, funcs1, st1) =>
        match compileNodes funcs1 st1 l2 with
        | .error e => .error e
        | .ok (fds2, funcs2, st2) => .ok (fds ++ fds2, funcs2, st2) := by
  induction l1 generalizing funcs st with
  | nil =>
    simp only [List.nil_append, compileNodes]
    cases compileNodes funcs st l2 with
    | error e => rfl
    | ok q => obtain ⟨fds2, funcs2, st2⟩ := q; rfl
  | cons n rest ih =>
    cases hn : compileNode funcs st n with
    | error e => simp [compileNodes, hn]
    | ok p =>
      obtain ⟨fd, st1⟩ := p
      simp only [List.cons_append, compileNodes, hn, List.append_eq]
      rw [ih]
      cases hr : compileNodes (n.name :: funcs) st1 rest with
      | error e => simp [hr]
      | ok q =>
        obtain ⟨fds, funcs1, st2⟩ := q
        simp only [hr]
        cases hl : compileNodes funcs1 st2 l2 with
        | error e => simp [hl]
        | ok r =>
          obtain ⟨fds2, funcs2, st3⟩ := r
          simp [hl]

theorem compileNodes_funcs {funcs : List String} {st : CState} {l : List Node}
    {fds : List FuncDef} {funcs2 : List String} {st2 : CState}
    (h : compileNodes funcs st l = .ok (fds, funcs2, st2)) :
    ∀ x, x ∈ funcs2 ↔ x ∈ funcs ∨ x ∈ l.map Node.name := by
  induction l generalizing funcs st fds funcs2 st2 with
  | nil =>
    simp only [compileNodes] at h
    obtain ⟨h1, h2, h3⟩ := by simpa using h
    subst h2
    simp
  | cons n rest ih =>
    cases hn : compileNode funcs st n with
    | error e =>
      simp only [compileNodes, hn] at h
      exact absurd h (by simp)
    | ok p =>
      obtain ⟨fd, st1⟩ := p
      simp only [compileNodes, hn] at h
      cases hr : compileNodes (n.name :: funcs) st1 rest with
      | error e =>
        simp only [hr] at h
        exact absurd h (by simp)
      | ok q =>
        obtain ⟨fds1, funcs1, st3⟩ := q
        simp only [hr] at h
        obtain ⟨_, h2, _⟩ := by simpa using h
        subst h2
        intro x
        rw [ih hr x]
        simp
        tauto

theorem compileAssigns_append (funcs : List String) (nodeName : String)
    (vars : List (String × Value)) (st : CState) (l1 l2 : List Assign) :
    compileAssigns funcs nodeName vars st (l1 ++ l2) =
      match compileAssigns funcs nodeName vars st l1 with
      | .error e => .error e
      | .ok (vars1, st1) => compileAssigns funcs nodeName vars1 st1 l2 := by
  induction l1 generalizing vars st with
  | nil => simp [compileAssigns]
  | cons a rest ih =>
    cases ha : compileAssign funcs vars st a with
    | error e => cases e <;> simp [compileAssigns, ha]
    | ok p =>
      obtain ⟨vars1, st1⟩ := p
      simp only [List.cons_append, compileAssigns, ha, List.append_eq]
      rw [ih]

/-! ## Claim C1: one-pass lowering and forward calls. -/

/-- C1: `Compile` lowers the nodes of a File in declaration order and
registers a node's function in `c.funcs` only after its whole body has
been lowered, so a call expression naming a node that is declared only
later in the file (not earlier under the same name, and not the
predeclared `print`) fails lowering, with an error identifying the
callee as an undefined node, wrapped in the enclosing node's context.
The hypotheses locate the call: nodes before `n` lower successfully, as
do the equations of `n` before the one whose body is the call. -/
theorem C1_one_pass_forward_call_fails
    (pre post : List Node) (n : Node) (nm : String) (args : List Expr)
    (dst : List String) (bodyPre bodyRest : List Assign)
    (hbody : n.body = bodyPre ++ ⟨dst, .call nm args⟩ :: bodyRest)
    (hlater : nm ∈ post.map Node.name)
    (hnotpre : nm ∉ pre.map Node.name)
    (hnotprint : nm ≠ "print")
    (fds : List FuncDef) (funcs1 : List String) (st1 : CState)
    (hpre : compileNodes ["print"] ⟨[], 0, []⟩ pre = .ok (fds, funcs1, st1))
    (vars1 : List (String × Value)) (st2 : CState)
    (hassigns : compileAssigns funcs1 n.name (varsSeed n) { st1 with instrs := [] } bodyPre =
      .ok (vars1, st2)) :
    Compile ⟨pre ++ n :: post⟩ =
      .error (.goErr ("failed to compile node \x27" ++ n.name ++ "\x27: " ++
        ("minilustre: undefined node \x27" ++ nm ++ "\x27"))) := by
  have hmem := compileNodes_funcs hpre
  have hnm : nm ∉ funcs1 := by
    rw [hmem nm]
    push_neg
    refine ⟨?_, hnotpre⟩
    simp [hnotprint]
  have hc : funcs1.contains nm = false := by
    simp [List.contains, List.elem_eq_mem, hnm]
  simp only [Compile, compileNodes_append, hpre, compileNodes, compileNode, hbody,
    compileAssigns_append, hassigns, compileAssigns, compileAssign, compileExpr, hc,
    Bool.false_eq_true, if_false]

/-- The two-node file of C1's witness: `f` calls `g`, declared after it. -/
def fwdCaller : Node := ⟨"f", [], [("x", .int)], [], [⟨["x"], .call "g" []⟩]⟩

/-- The callee of C1's witness, declared second. -/
def fwdCallee : Node := ⟨"g", [], [("y", .int)], [], []⟩

/-- Witness for C1 at a concrete two-node file. -/
theorem C1_witness :
    Compile ⟨[fwdCaller, fwdCallee]⟩ =
      .error (.goErr "failed to compile node \x27f\x27: minilustre: undefined node \x27g\x27") :=
  C1_one_pass_forward_call_fails [] [fwdCallee] fwdCaller "g" [] ["x"] [] []
    rfl (by simp [fwdCallee]) (by simp) (by decide)
    [] ["print"] ⟨[], 0, []⟩ rfl (varsSeed fwdCaller) ⟨[], 0, []⟩ rfl

/-! ## Claim C2: lowering of `fby`. -/

/-- C2 counterexample: lowering a `Fby` whose left operand is an
undefined variable returns an undefined-variable *error*, not the fixed
zero constant — so "returns a fixed 32-bit integer constant zero ...
regardless of the operands" fails as stated: the operands are still
lowered first and their errors propagate. -/
theorem C2_cex_fby_operand_error :
    compileExpr [] [] ⟨[], 0, []⟩ (.binOp .fby (.var "x") (.const (.int 1))) =
      .error (.goErr "minilustre: referring to undefined variable \x27x\x27") := rfl

/-- C2 (amended): whenever both operands of a `Fby` lower successfully
(in left-to-right order, threading the module state), lowering the `Fby`
expression returns the 32-bit integer constant zero as its result value,
discarding both operand values; the module/block state is the one left
behind by lowering the operands. -/
theorem C2_fby_lowers_to_zero
    (funcs : List String) (vars : List (String × Value)) (st st1 st2 : CState)
    (l r : Expr) (lv rv : Value)
    (hl : compileExpr funcs vars st l = .ok (lv, st1))
    (hr : compileExpr funcs vars st1 r = .ok (rv, st2)) :
    compileExpr funcs vars st (.binOp .fby l r) = .ok (.intC .i32 0, st2) := by
  simp [compileExpr, hl, hr]

/-- Witness for the amended C2 at concrete operands. -/
theorem C2_witness :
    compileExpr [] [("a", Value.intC .i32 3)] ⟨[], 0, []⟩
      (.binOp .fby (.var "a") (.var "a")) = .ok (.intC .i32 0, ⟨[], 0, []⟩) :=
  C2_fby_lowers_to_zero [] [("a", Value.intC .i32 3)] ⟨[], 0, []⟩ ⟨[], 0, []⟩ ⟨[], 0, []⟩
    (.var "a") (.var "a") (.intC .i32 3) (.intC .i32 3) rfl rfl

/-! ## Claim C10: multi-destination assignments bind only the first name. -/

/-- C10: lowering an `Assign` with destinations `d0 :: ds` binds the
lowered body value only to `d0`; every other name's binding is
unchanged, so if such a name had no binding (it is not an input or
output parameter and was not assigned earlier), a subsequent `Var`
reference to it fails with the undefined-variable error. -/
theorem C10_multi_destination_first_only
    (funcs : List String) (vars vars1 : List (String × Value)) (st st1 : CState)
    (d0 : String) (ds : List String) (body : Expr)
    (h : compileAssign funcs vars st ⟨d0 :: ds, body⟩ = .ok (vars1, st1)) :
    (∀ nm, nm ≠ d0 → mapLookup vars1 nm = mapLookup vars nm) ∧
    (∀ nm, nm ∈ ds → nm ≠ d0 → mapLookup vars nm = none →
      ∀ st2, compileExpr funcs vars1 st2 (.var nm) =
        .error (.goErr ("minilustre: referring to undefined variable \x27" ++
          nm ++ "\x27"))) := by
  cases hce : compileExpr funcs vars st body with
  | error e =>
    simp only [compileAssign, hce] at h
    exact absurd h (by simp)
  | ok p =>
    obtain ⟨v, stx⟩ := p
    simp only [compileAssign, hce] at h
    obtain ⟨h1, h2⟩ := by simpa using h
    have hv1 : vars1 = (d0, v) :: vars := h1.symm
    subst hv1
    have hskip : ∀ nm, nm ≠ d0 → mapLookup ((d0, v) :: vars) nm = mapLookup vars nm := by
      intro nm hne
      have hd : ¬ (d0 = nm) := fun hcontra => hne hcontra.symm
      simp [mapLookup, List.find?, hd]
    refine ⟨hskip, ?_⟩
    intro nm hmem hne hnone st2
    simp [compileExpr, hskip nm hne, hnone]

/-- Witness for C10: after `(a, b) = 1`, `b` is unbound and referencing
it fails. -/
theorem C10_witness :
    compileExpr [] [("a", Value.intC .i32 1)] ⟨[], 0, []⟩ (.var "b") =
      .error (.goErr "minilustre: referring to undefined variable \x27b\x27") :=
  (C10_multi_destination_first_only [] [] [("a", Value.intC .i32 1)] ⟨[], 0, []⟩ ⟨[], 0, []⟩
    "a" ["b"] (.const (.int 1)) rfl).2 "b" (by simp) (by decide) rfl ⟨[], 0, []⟩

/-! ## Step lemmas for the token-accepting primitives.

The parser definitions destructure `acceptItemE`/`acceptKeywordE`
results through dependent matches; these lemmas characterize those
primitives once, so higher-level evaluations never unfold them. -/

theorem acceptItemE_cons_pos (t : itemType) (v : String) (rest : List item) :
    acceptItemE t (⟨t, v⟩ :: rest) = .ok (v, ⟨rest, by simp⟩) := by
  unfold acceptItemE
  split
  · next e heq => simp [peekItemE, peekTok] at heq
  · next s heq =>
    simp [peekItemE, peekTok] at heq
    simp [heq, List.tail]

theorem acceptItemE_cons_neg (t : itemType) (it : item) (rest : List item)
    (h : it.typ ≠ t) :
    acceptItemE t (it :: rest) =
      .error (.goErr ("minilustre: expected token " ++ itemTypeStr t ++
        ", got " ++ itemGoFmt it)) := by
  unfold acceptItemE
  split
  · next e heq =>
    simp [peekItemE, peekTok, h] at heq
    simp [← heq]
  · next s heq => simp [peekItemE, peekTok, h] at heq

theorem acceptItemE_nil_neg (t : itemType) (h : t ≠ .eof) :
    acceptItemE t [] =
      .error (.goErr ("minilustre: expected token " ++ itemTypeStr t ++
        ", got " ++ itemGoFmt ⟨.eof, ""⟩)) := by
  unfold acceptItemE
  split
  · next e heq =>
    simp [peekItemE, peekTok, Ne.symm h] at heq
    simp [← heq]
  · next s heq => simp [peekItemE, peekTok, Ne.symm h] at heq

theorem acceptItemE_nil_eof :
    acceptItemE .eof [] = .ok ("", ⟨[], by simp⟩) := by
  unfold acceptItemE
  split
  · next e heq => simp [peekItemE, peekTok] at heq
  · next s heq =>
    simp [peekItemE, peekTok] at heq
    simp [heq, List.tail]

theorem acceptKeywordE_pos (kw : String) (rest : List item) :
    acceptKeywordE kw (⟨.keyword, kw⟩ :: rest) = .ok ((), ⟨rest, by simp⟩) := by
  unfold acceptKeywordE
  split
  · next e heq => simp [peekItemE, peekTok] at heq
  · next s heq =>
    simp [peekItemE, peekTok] at heq
    simp [heq, List.tail]

theorem acceptKeywordE_wrong_kind (kw : String) (it : item) (rest : List item)
    (h : it.typ ≠ .keyword) :
    acceptKeywordE kw (it :: rest) =
      .error (.goErr ("minilustre: expected keyword " ++ kw ++ ", got " ++
        itemStr it)) := by
  unfold acceptKeywordE
  split
  · next e heq => simp [peekTok]
  · next s heq => simp [peekItemE, peekTok, h] at heq

theorem acceptKeywordE_wrong_word (kw s : String) (rest : List item)
    (h : s ≠ kw) :
    acceptKeywordE kw (⟨.keyword, s⟩ :: rest) =
      .error (.goErr ("minilustre: expected keyword " ++ kw ++ ", got " ++ s)) := by
  unfold acceptKeywordE
  split
  · next e heq => simp [peekItemE, peekTok] at heq
  · next s2 heq =>
    simp [peekItemE, peekTok] at heq
    subst heq
    simp [h]

theorem acceptKeywordE_nil (kw : String) :
    acceptKeywordE kw [] =
      .error (.goErr ("minilustre: expected keyword " ++ kw ++ ", got " ++
        itemStr ⟨.eof, ""⟩)) := by
  unfold acceptKeywordE
  split
  · next e heq => simp [peekTok]
  · next s heq => simp [peekItemE, peekTok] at heq

/-! ## Expression-parser evaluation lemmas (shared by several claims). -/

theorem exprMemberE_ident_then (a : String) (it : item) (rest : List item)
    (hlp : it.typ ≠ .lparen) :
    exprMemberE (⟨.ident, a⟩ :: it :: rest) =
      .ok (.var a, ⟨it :: rest, by simp⟩) := by
  rw [exprMemberE]
  simp only [acceptItemE_cons_neg .lparen ⟨.ident, a⟩ (it :: rest) (by simp),
    acceptItemE_cons_pos .ident a (it :: rest),
    acceptItemE_cons_neg .lparen it rest hlp]

theorem exprMemberE_ident_nil (a : String) :
    exprMemberE [⟨.ident, a⟩] = .ok (.var a, ⟨[], by simp⟩) := by
  rw [exprMemberE]
  simp only [acceptItemE_cons_neg .lparen ⟨.ident, a⟩ [] (by simp),
    acceptItemE_cons_pos .ident a [],
    acceptItemE_nil_neg .lparen (by simp)]

theorem exprE_ident_nil (a : String) :
    exprE [⟨.ident, a⟩] = .ok (.var a, ⟨[], by simp⟩) := by
  rw [exprE]
  simp only [exprMemberE_ident_nil a, acceptKeywordE_nil "fby",
    acceptItemE_nil_neg .op (by simp)]

theorem exprE_ident_minus_ident (b c : String) :
    exprE [⟨.ident, b⟩, ⟨.op, "-"⟩, ⟨.ident, c⟩] =
      .ok (.binOp .minus (.var b) (.var c), ⟨[], by simp⟩) := by
  rw [exprE]
  simp only [exprMemberE_ident_then b ⟨.op, "-"⟩ [⟨.ident, c⟩] (by simp),
    acceptKeywordE_wrong_kind "fby" ⟨.op, "-"⟩ [⟨.ident, c⟩] (by simp),
    acceptItemE_cons_pos .op "-" [⟨.ident, c⟩], exprE_ident_nil c]

theorem exprE_ident_plus_ident (b c : String) :
    exprE [⟨.ident, b⟩, ⟨.op, "+"⟩, ⟨.ident, c⟩] =
      .ok (.binOp .plus (.var b) (.var c), ⟨[], by simp⟩) := by
  rw [exprE]
  simp only [exprMemberE_ident_then b ⟨.op, "+"⟩ [⟨.ident, c⟩] (by simp),
    acceptKeywordE_wrong_kind "fby" ⟨.op, "+"⟩ [⟨.ident, c⟩] (by simp),
    acceptItemE_cons_pos .op "+" [⟨.ident, c⟩], exprE_ident_nil c]

/-! ## Claim C4: right recursion without precedence. -/

/-- C4: `parser.expr` is right-recursive with no precedence
distinctions: for all identifiers `a b c`, the token stream of
`a + b - c` parses to `BinOp(Plus, Var a, BinOp(Minus, Var b, Var c))`,
and in `a fby b + c` the right operand of the `Fby` node is the parse of
the entire remaining expression `b + c`. -/
theorem C4_right_recursive_no_precedence (a b c : String) :
    pExpr [⟨.ident, a⟩, ⟨.op, "+"⟩, ⟨.ident, b⟩, ⟨.op, "-"⟩, ⟨.ident, c⟩] =
      .ok (.binOp .plus (.var a) (.binOp .minus (.var b) (.var c)), []) ∧
    pExpr [⟨.ident, a⟩, ⟨.keyword, "fby"⟩, ⟨.ident, b⟩, ⟨.op, "+"⟩, ⟨.ident, c⟩] =
      .ok (.binOp .fby (.var a) (.binOp .plus (.var b) (.var c)), []) := by
  constructor
  · rw [pExpr, exprE]
    simp only [exprMemberE_ident_then a ⟨.op, "+"⟩
        [⟨.ident, b⟩, ⟨.op, "-"⟩, ⟨.ident, c⟩] (by simp),
      acceptKeywordE_wrong_kind "fby" ⟨.op, "+"⟩
        [⟨.ident, b⟩, ⟨.op, "-"⟩, ⟨.ident, c⟩] (by simp),
      acceptItemE_cons_pos .op "+" [⟨.ident, b⟩, ⟨.op, "-"⟩, ⟨.ident, c⟩],
      exprE_ident_minus_ident b c, Except.map]
  · rw [pExpr, exprE]
    simp only [exprMemberE_ident_then a ⟨.keyword, "fby"⟩
        [⟨.ident, b⟩, ⟨.op, "+"⟩, ⟨.ident, c⟩] (by simp),
      acceptKeywordE_pos "fby" [⟨.ident, b⟩, ⟨.op, "+"⟩, ⟨.ident, c⟩],
      exprE_ident_plus_ident b c, Except.map]

/-! ## Claim C6: panic on `<` / `>` after an expression member. -/

/-- C6: the parser does *not* always abort with a returned error — on
the user-supplied token stream `a < b` the operator `<` is accepted, the
right-hand expression is parsed, and then the `default` arm of the
operator switch in `parser.expr` is reached: an unrecoverable panic
`unknown binary operation '<'` that aborts the process. -/
theorem C6_lt_operator_panics :
    pExpr [⟨.ident, "a"⟩, ⟨.op, "<"⟩, ⟨.ident, "b"⟩] =
      .error (.goPanic "unknown binary operation \x27<\x27") := by
  rw [pExpr, exprE]
  simp only [exprMemberE_ident_then "a" ⟨.op, "<"⟩ [⟨.ident, "b"⟩] (by simp),
    acceptKeywordE_wrong_kind "fby" ⟨.op, "<"⟩ [⟨.ident, "b"⟩] (by simp),
    acceptItemE_cons_pos .op "<" [⟨.ident, "b"⟩], exprE_ident_nil "b", Except.map]
  rfl

/-! ## Parameter-list and assignment-list evaluation lemmas. -/

theorem pNames_no_ident (it : item) (rest : List item) (h : it.typ ≠ .ident) :
    pNames (it :: rest) = ([], ⟨it :: rest, le_refl _⟩) := by
  rw [pNames]
  simp only [acceptItemE_cons_neg .ident it rest h]

theorem pParamListE_no_ident (it : item) (rest : List item) (h : it.typ ≠ .ident)
    (params : List (String × Ty)) :
    pParamListE (it :: rest) params = .ok (params, ⟨it :: rest, le_refl _⟩) := by
  rw [pParamListE, pParamE]
  simp only [pNames_no_ident it rest h, List.isEmpty_nil, if_true]

theorem pAssignE_no_start (it : item) (rest : List item)
    (h1 : it.typ ≠ .lparen) (h2 : it.typ ≠ .ident) :
    pAssignE (it :: rest) = .ok (none, ⟨it :: rest, le_refl _⟩) := by
  rw [pAssignE]
  simp only [acceptItemE_cons_neg .lparen it rest h1, acceptItemE_cons_neg .ident it rest h2]

theorem pAssignListE_no_start (it : item) (rest : List item)
    (h1 : it.typ ≠ .lparen) (h2 : it.typ ≠ .ident) :
    pAssignListE (it :: rest) = .ok ([], ⟨it :: rest, le_refl _⟩) := by
  rw [pAssignListE]
  simp only [pAssignE_no_start it rest h1 h2]

/-! ## General lemmas about parsing a node header with an empty body. -/

/-- A node whose equation body is empty (`let tel`), with parseable in-
and out-parameter lists and at least one output parameter, parses to the
expected `Node` (no `var` section: `localParams` stays nil). -/
theorem pNodeE_empty_body_parses
    (nm : String) (tin tout rest : List item)
    (inP outP : List (String × Ty))
    (hIn : pParamListE (tin ++ ⟨.rparen, ")"⟩ :: ⟨.keyword, "returns"⟩ :: ⟨.lparen, "("⟩ ::
        (tout ++ ⟨.rparen, ")"⟩ :: ⟨.semi, ";"⟩ :: ⟨.keyword, "let"⟩ :: ⟨.keyword, "tel"⟩ :: rest)) [] =
      .ok (inP, ⟨⟨.rparen, ")"⟩ :: ⟨.keyword, "returns"⟩ :: ⟨.lparen, "("⟩ ::
        (tout ++ ⟨.rparen, ")"⟩ :: ⟨.semi, ";"⟩ :: ⟨.keyword, "let"⟩ :: ⟨.keyword, "tel"⟩ :: rest),
        by simp⟩))
    (hOut : pParamListE (tout ++ ⟨.rparen, ")"⟩ :: ⟨.semi, ";"⟩ :: ⟨.keyword, "let"⟩ ::
        ⟨.keyword, "tel"⟩ :: rest) [] =
      .ok (outP, ⟨⟨.rparen, ")"⟩ :: ⟨.semi, ";"⟩ :: ⟨.keyword, "let"⟩ :: ⟨.keyword, "tel"⟩ :: rest,
        by simp⟩))
    (hne : outP ≠ []) :
    pNodeE (⟨.keyword, "node"⟩ :: ⟨.ident, nm⟩ :: ⟨.lparen, "("⟩ ::
        (tin ++ ⟨.rparen, ")"⟩ :: ⟨.keyword, "returns"⟩ :: ⟨.lparen, "("⟩ ::
          (tout ++ ⟨.rparen, ")"⟩ :: ⟨.semi, ";"⟩ :: ⟨.keyword, "let"⟩ :: ⟨.keyword, "tel"⟩ :: rest))) =
      .ok (⟨nm, inP, outP, [], []⟩, ⟨rest, by simp; omega⟩) := by
  have hemp : outP.isEmpty = false := by
    cases outP with
    | nil => exact absurd rfl hne
    | cons p ps => simp
  rw [pNodeE]
  simp only [acceptKeywordE_pos "node", acceptItemE_cons_pos .ident nm,
    acceptItemE_cons_pos .lparen "(", hIn,
    acceptItemE_cons_pos .rparen ")", acceptKeywordE_pos "returns", hOut,
    hemp, Bool.false_eq_true, if_false,
    acceptItemE_cons_pos .semi ";",
    acceptKeywordE_wrong_word "var" "let" _ (by decide),
    pNodeFinish, acceptKeywordE_pos "let",
    pAssignListE_no_start ⟨.keyword, "tel"⟩ rest (by simp) (by simp),
    acceptKeywordE_pos "tel"]

/-- With zero output parameters the same header fails with the
missing-output error (whose text reproduces Go's `%!v(MISSING)` for the
`fmt.Errorf` argument the source forgot to pass). -/
theorem pNodeE_zero_outputs_fails
    (nm : String) (tin tout rest : List item)
    (inP : List (String × Ty))
    (hIn : pParamListE (tin ++ ⟨.rparen, ")"⟩ :: ⟨.keyword, "returns"⟩ :: ⟨.lparen, "("⟩ ::
        (tout ++ ⟨.rparen, ")"⟩ :: ⟨.semi, ";"⟩ :: ⟨.keyword, "let"⟩ :: ⟨.keyword, "tel"⟩ :: rest)) [] =
      .ok (inP, ⟨⟨.rparen, ")"⟩ :: ⟨.keyword, "returns"⟩ :: ⟨.lparen, "("⟩ ::
        (tout ++ ⟨.rparen, ")"⟩ :: ⟨.semi, ";"⟩ :: ⟨.keyword, "let"⟩ :: ⟨.keyword, "tel"⟩ :: rest),
        by simp⟩))
    (hOut : pParamListE (tout ++ ⟨.rparen, ")"⟩ :: ⟨.semi, ";"⟩ :: ⟨.keyword, "let"⟩ ::
        ⟨.keyword, "tel"⟩ :: rest) [] =
      .ok ([], ⟨⟨.rparen, ")"⟩ :: ⟨.semi, ";"⟩ :: ⟨.keyword, "let"⟩ :: ⟨.keyword, "tel"⟩ :: rest,
        by simp⟩)) :
    pNodeE (⟨.keyword, "node"⟩ :: ⟨.ident, nm⟩ :: ⟨.lparen, "("⟩ ::
        (tin ++ ⟨.rparen, ")"⟩ :: ⟨.keyword, "returns"⟩ :: ⟨.lparen, "("⟩ ::
          (tout ++ ⟨.rparen, ")"⟩ :: ⟨.semi, ";"⟩ :: ⟨.keyword, "let"⟩ :: ⟨.keyword, "tel"⟩ :: rest))) =
      .error (.goErr "minilustre: \x27%!v(MISSING)\x27 doesn\x27t have any out parameter") := by
  rw [pNodeE]
  simp only [acceptKeywordE_pos "node", acceptItemE_cons_pos .ident nm,
    acceptItemE_cons_pos .lparen "(", hIn,
    acceptItemE_cons_pos .rparen ")", acceptKeywordE_pos "returns", hOut,
    List.isEmpty_nil, if_true]

/-! ## Claim C3: empty bodies parse; zero outputs do not. -/

/-- C3: for any node header whose in- and out-parameter lists parse (the
two hypotheses state the parses, stopping at the closing parentheses),
a node with an *empty* equation body (`let tel`) parses successfully
exactly when at least one output parameter was declared; with zero
output parameters, `parser.node` fails with the error identifying the
missing output clause (its text reproduces Go's `%!v(MISSING)` for the
`fmt.Errorf` argument the source forgot to pass). -/
theorem C3_empty_body_and_zero_outputs
    (nm : String) (tin tout rest : List item)
    (inP outP : List (String × Ty))
    (hIn : pParamListE (tin ++ ⟨.rparen, ")"⟩ :: ⟨.keyword, "returns"⟩ :: ⟨.lparen, "("⟩ ::
        (tout ++ ⟨.rparen, ")"⟩ :: ⟨.semi, ";"⟩ :: ⟨.keyword, "let"⟩ :: ⟨.keyword, "tel"⟩ :: rest)) [] =
      .ok (inP, ⟨⟨.rparen, ")"⟩ :: ⟨.keyword, "returns"⟩ :: ⟨.lparen, "("⟩ ::
        (tout ++ ⟨.rparen, ")"⟩ :: ⟨.semi, ";"⟩ :: ⟨.keyword, "let"⟩ :: ⟨.keyword, "tel"⟩ :: rest),
        by simp⟩))
    (hOut : pParamListE (tout ++ ⟨.rparen, ")"⟩ :: ⟨.semi, ";"⟩ :: ⟨.keyword, "let"⟩ ::
        ⟨.keyword, "tel"⟩ :: rest) [] =
      .ok (outP, ⟨⟨.rparen, ")"⟩ :: ⟨.semi, ";"⟩ :: ⟨.keyword, "let"⟩ :: ⟨.keyword, "tel"⟩ :: rest,
        by simp⟩)) :
    (outP ≠ [] →
      pNode (⟨.keyword, "node"⟩ :: ⟨.ident, nm⟩ :: ⟨.lparen, "("⟩ ::
          (tin ++ ⟨.rparen, ")"⟩ :: ⟨.keyword, "returns"⟩ :: ⟨.lparen, "("⟩ ::
            (tout ++ ⟨.rparen, ")"⟩ :: ⟨.semi, ";"⟩ :: ⟨.keyword, "let"⟩ :: ⟨.keyword, "tel"⟩ :: rest))) =
        .ok (⟨nm, inP, outP, [], []⟩, rest)) ∧
    (outP = [] →
      pNode (⟨.keyword, "node"⟩ :: ⟨.ident, nm⟩ :: ⟨.lparen, "("⟩ ::
          (tin ++ ⟨.rparen, ")"⟩ :: ⟨.keyword, "returns"⟩ :: ⟨.lparen, "("⟩ ::
            (tout ++ ⟨.rparen, ")"⟩ :: ⟨.semi, ";"⟩ :: ⟨.keyword, "let"⟩ :: ⟨.keyword, "tel"⟩ :: rest))) =
        .error (.goErr "minilustre: \x27%!v(MISSING)\x27 doesn\x27t have any out parameter")) := by
  constructor
  · intro hne
    rw [pNode]
    simp only [pNodeE_empty_body_parses nm tin tout rest inP outP hIn hOut hne, Except.map]
  · intro hz
    subst hz
    rw [pNode]
    simp only [pNodeE_zero_outputs_fails nm tin tout rest inP hIn hOut, Except.map]

/-- Concrete out-parameter list `c: int` for C3's witness, parsed up to
the closing parenthesis. -/
theorem pParamListE_c_int :
    pParamListE [⟨.ident, "c"⟩, ⟨.colon, ":"⟩, ⟨.keyword, "int"⟩, ⟨.rparen, ")"⟩,
      ⟨.semi, ";"⟩, ⟨.keyword, "let"⟩, ⟨.keyword, "tel"⟩, ⟨.eof, ""⟩] [] =
    .ok ([("c", .int)], ⟨[⟨.rparen, ")"⟩, ⟨.semi, ";"⟩, ⟨.keyword, "let"⟩,
      ⟨.keyword, "tel"⟩, ⟨.eof, ""⟩], by simp⟩) := by
  rw [pParamListE, pParamE, pNames]
  simp [typE, insertParams, mapLookup, acceptItemE, peekItemE, peekTok, List.tail]

/-- Witness for C3: `node f() returns (c: int); let tel` parses to a
node with an empty body; the same theorem also covers the zero-output
failure. -/
theorem C3_witness :
    pNode [⟨.keyword, "node"⟩, ⟨.ident, "f"⟩, ⟨.lparen, "("⟩, ⟨.rparen, ")"⟩,
      ⟨.keyword, "returns"⟩, ⟨.lparen, "("⟩, ⟨.ident, "c"⟩, ⟨.colon, ":"⟩,
      ⟨.keyword, "int"⟩, ⟨.rparen, ")"⟩, ⟨.semi, ";"⟩, ⟨.keyword, "let"⟩,
      ⟨.keyword, "tel"⟩, ⟨.eof, ""⟩] =
    .ok (⟨"f", [], [("c", .int)], [], []⟩, [⟨.eof, ""⟩]) :=
  (C3_empty_body_and_zero_outputs "f" []
    [⟨.ident, "c"⟩, ⟨.colon, ":"⟩, ⟨.keyword, "int"⟩] [⟨.eof, ""⟩]
    [] [("c", .int)]
    (pParamListE_no_ident ⟨.rparen, ")"⟩ _ (by simp) [])
    pParamListE_c_int).1 (by simp)

/-! ## Claim C7: lexical errors and byte offsets. -/

theorem exceptMap_error_iff {ε α β : Type} (f : α → β) (x : Except ε α) (e : ε) :
    x.map f = .error e ↔ x = .error e := by
  cases x <;> simp [Except.map]

theorem breakOnQuote_eq_none {cs : List Char} (h : '"' ∉ cs) :
    breakOnQuote cs = none := by
  induction cs with
  | nil => rfl
  | cons c cs ih =>
    simp only [List.mem_cons, not_or] at h
    have hne : ¬ (c = '"') := fun hc => h.1 hc.symm
    simp [breakOnQuote, hne, ih h.2]

/-- The shape of every tokenizer error, by strong induction on the input:
either the bare `io.EOF` of an unterminated string, or the
unexpected-character message carrying a byte offset. -/
theorem lexAll_error_shape (n : Nat) : ∀ (cs : List Char) (pos : Nat) (e : String),
    cs.length ≤ n → lexAll cs pos = .error e →
    e = "EOF" ∨ ∃ c p, e = "minilustre: unexpected character \x27" ++
      String.singleton c ++ "\x27 at offset " ++ toString (p : Nat) := by
  induction n with
  | zero =>
    intro cs pos e hlen h
    cases cs with
    | nil => simp [lexAll] at h
    | cons c cs2 => simp at hlen
  | succ n ih =>
    intro cs pos e hlen h
    cases cs with
    | nil => simp [lexAll] at h
    | cons c cs2 =>
      rw [lexAll] at h
      simp only [List.length_cons, Nat.succ_le_succ_iff] at hlen
      by_cases h1 : c = '('
      · rw [if_pos h1] at h
        exact ih cs2 _ e hlen ((exceptMap_error_iff _ _ _).mp h)
      rw [if_neg h1] at h
      by_cases h2 : c = ')'
      · rw [if_pos h2] at h
        exact ih cs2 _ e hlen ((exceptMap_error_iff _ _ _).mp h)
      rw [if_neg h2] at h
      by_cases h3 : c = ':'
      · rw [if_pos h3] at h
        exact ih cs2 _ e hlen ((exceptMap_error_iff _ _ _).mp h)
      rw [if_neg h3] at h
      by_cases h4 : c = ';'
      · rw [if_pos h4] at h
        exact ih cs2 _ e hlen ((exceptMap_error_iff _ _ _).mp h)
      rw [if_neg h4] at h
      by_cases h5 : c = ','
      · rw [if_pos h5] at h
        exact ih cs2 _ e hlen ((exceptMap_error_iff _ _ _).mp h)
      rw [if_neg h5] at h
      by_cases h6 : c = '='
      · rw [if_pos h6] at h
        exact ih cs2 _ e hlen ((exceptMap_error_iff _ _ _).mp h)
      rw [if_neg h6] at h
      by_cases h7 : c = '"'
      · rw [if_pos h7] at h
        split at h
        · next heq =>
          refine Or.inl ?_
          injection h with hh
          exact hh.symm
        · next content rest heq =>
          have hrl : rest.length ≤ n := le_trans (breakOnQuote_length heq) hlen
          exact ih rest _ e hrl ((exceptMap_error_iff _ _ _).mp h)
      rw [if_neg h7] at h
      by_cases h8 : (c = '+' || c = '-' || c = '<' || c = '>') = true
      · rw [if_pos h8] at h
        exact ih cs2 _ e hlen ((exceptMap_error_iff _ _ _).mp h)
      rw [if_neg h8] at h
      by_cases h9 : isWs c = true
      · rw [if_pos h9] at h
        exact ih cs2 _ e hlen h
      rw [if_neg h9] at h
      by_cases h10 : c.isDigit = true
      · rw [dif_pos h10] at h
        simp only at h
        refine ih _ _ e ?_ ((exceptMap_error_iff _ _ _).mp h)
        have hsub := (List.dropWhile_sublist (l := cs2) Char.isDigit).length_le
        simp only [List.dropWhile, h10]
        omega
      rw [dif_neg h10] at h
      by_cases h11 : isIdentChar c = true
      · rw [dif_pos h11] at h
        simp only at h
        refine ih _ _ e ?_ ((exceptMap_error_iff _ _ _).mp h)
        have hsub := (List.dropWhile_sublist (l := cs2) isIdentChar).length_le
        simp only [List.dropWhile, h11]
        omega
      rw [dif_neg h11] at h
      refine Or.inr ⟨c, pos + c.utf8Size, ?_⟩
      injection h with hh
      exact hh.symm

/-- C7 counterexample: the unterminated string `"a` aborts lexing with
the bare error `EOF`, which contains no digit at all and therefore
carries no byte offset — refuting that *every* lexical error carries
one. -/
theorem C7_cex_unterminated_no_offset :
    lexAll ['"', 'a'] 0 = .error "EOF" ∧
    "EOF".data.all (fun c => ! c.isDigit) = true := by
  constructor
  · simp [lexAll, breakOnQuote]
  · decide

/-- C7 (amended): an unrecognized character aborts the whole compilation
with a fatal error carrying its byte offset, but an unterminated string
aborts with the bare end-of-input error `EOF`, which carries no offset;
every tokenizer error is of one of these two shapes. -/
theorem C7_lexical_errors
    : (∀ cs pos e, lexAll cs pos = .error e →
        e = "EOF" ∨ ∃ c p, e = "minilustre: unexpected character \x27" ++
          String.singleton c ++ "\x27 at offset " ++ toString (p : Nat)) ∧
      (∀ (cs : List Char) (pos : Nat), '"' ∉ cs →
        lexAll ('"' :: cs) pos = .error "EOF") ∧
      (∀ (c : Char) (cs : List Char) (pos : Nat),
        c ∉ ['(', ')', ':', ';', ',', '=', '"', '+', '-', '<', '>'] →
        isWs c = false → c.isDigit = false → isIdentChar c = false →
        lexAll (c :: cs) pos = .error ("minilustre: unexpected character \x27" ++
          String.singleton c ++ "\x27 at offset " ++ toString (pos + c.utf8Size))) := by
  refine ⟨fun cs pos e h => lexAll_error_shape cs.length cs pos e (le_refl _) h, ?_, ?_⟩
  · intro cs pos h
    have hbq := breakOnQuote_eq_none h
    rw [lexAll]
    rw [if_neg (show ¬ ('"' = '(') by decide)]
    rw [if_neg (show ¬ ('"' = ')') by decide)]
    rw [if_neg (show ¬ ('"' = ':') by decide)]
    rw [if_neg (show ¬ ('"' = ';') by decide)]
    rw [if_neg (show ¬ ('"' = ',') by decide)]
    rw [if_neg (show ¬ ('"' = '=') by decide)]
    rw [if_pos (show ('"' : Char) = '"' from rfl)]
    split
    · rfl
    · next content rest heq =>
      rw [hbq] at heq
      exact absurd heq (by simp)
  · intro c cs pos h1 h2 h3 h4
    simp only [List.mem_cons, not_or, List.not_mem_nil, and_true] at h1
    obtain ⟨n1, n2, n3, n4, n5, n6, n7, n8, n9, n10, n11⟩ := h1
    rw [lexAll]
    simp [n1, n2, n3, n4, n5, n6, n7, n8, n9, n10, n11, h2, h3, h4]

/-- Witness for C7 at the concrete unrecognized character `?`. -/
theorem C7_witness :
    lexAll ['?'] 5 = .error "minilustre: unexpected character \x27?\x27 at offset 6" :=
  C7_lexical_errors.2.2 '?' [] 5 (by decide) (by decide) (by decide) (by decide)

/-! ## More parameter-list evaluation lemmas. -/

theorem pNames_single (v : String) (it : item) (rest : List item)
    (hc : it.typ ≠ .comma) :
    pNames (⟨.ident, v⟩ :: it :: rest) = ([v], ⟨it :: rest, by simp⟩) := by
  rw [pNames]
  simp only [acceptItemE_cons_pos .ident v, acceptItemE_cons_neg .comma it rest hc]

theorem typE_int (rest : List item) :
    typE (⟨.keyword, "int"⟩ :: rest) = .ok (.int, ⟨rest, by simp⟩) := by
  rw [typE]
  simp only [acceptItemE_cons_pos .keyword "int"]

/-- One parameter group `v: int` (`parser.param`), stopped by a
non-comma token after the name. -/
theorem pParamE_single_int (v : String) (params : List (String × Ty))
    (hv : mapLookup params v = none) (it : item) (rest : List item)
    (hc : it.typ ≠ .comma) :
    pParamE params (⟨.ident, v⟩ :: ⟨.colon, ":"⟩ :: ⟨.keyword, "int"⟩ :: it :: rest) =
      .ok ((true, params ++ [(v, .int)]), ⟨it :: rest, by simp⟩) := by
  rw [pParamE]
  rw [pNames_single v ⟨.colon, ":"⟩ (⟨.keyword, "int"⟩ :: it :: rest) (by simp)]
  simp only [List.isEmpty_cons, Bool.false_eq_true, if_false,
    acceptItemE_cons_pos .colon ":", typE_int,
    insertParams, hv, Option.isSome_none]

/-- One `v: int` group as a whole parameter list, stopped by a token
that is neither comma nor semicolon. -/
theorem pParamListE_one_int (v : String) (params : List (String × Ty))
    (hv : mapLookup params v = none) (it : item) (rest : List item)
    (hc : it.typ ≠ .comma) (hs : it.typ ≠ .semi) :
    pParamListE (⟨.ident, v⟩ :: ⟨.colon, ":"⟩ :: ⟨.keyword, "int"⟩ :: it :: rest) params =
      .ok (params ++ [(v, .int)], ⟨it :: rest, by simp⟩) := by
  rw [pParamListE]
  rw [pParamE_single_int v params hv it rest hc]
  simp only [acceptItemE_cons_neg .semi it rest hs]

/-- Two groups `v: int; w: int`, stopped at a token that is neither
comma, semicolon nor identifier. -/
theorem pParamListE_two_int (v w : String) (hvw : v ≠ w) (it : item) (rest : List item)
    (hc : it.typ ≠ .comma) (hs : it.typ ≠ .semi) :
    pParamListE (⟨.ident, v⟩ :: ⟨.colon, ":"⟩ :: ⟨.keyword, "int"⟩ :: ⟨.semi, ";"⟩ ::
        ⟨.ident, w⟩ :: ⟨.colon, ":"⟩ :: ⟨.keyword, "int"⟩ :: it :: rest) [] =
      .ok ([(v, .int), (w, .int)], ⟨it :: rest, by simp⟩) := by
  rw [pParamListE]
  have h1 := pParamE_single_int v [] (by simp [mapLookup]) ⟨.semi, ";"⟩
    (⟨.ident, w⟩ :: ⟨.colon, ":"⟩ :: ⟨.keyword, "int"⟩ :: it :: rest) (by simp)
  simp only [List.nil_append] at h1
  rw [h1]
  have h2 := pParamListE_one_int w [(v, .int)]
    (by simp [mapLookup, List.find?, hvw]) it rest hc hs
  simp only [acceptItemE_cons_pos .semi ";", h2]
  simp

/-- A single-node file whose parse ends exactly at the EOF item. -/
theorem pFile_single_node (toks : List item) (n : Node) (rest : List item)
    (pf : ((⟨.eof, ""⟩ :: rest : List item)).length < toks.length)
    (h : pNodeE toks = .ok (n, ⟨⟨.eof, ""⟩ :: rest, pf⟩)) :
    pFile toks = .ok ⟨[n]⟩ := by
  rw [pFile, pFileE]
  rw [h]
  simp only [acceptItemE_cons_pos .eof "", Except.map]

/-! ## Claim C8: determinism and Go map iteration order. -/

/-- Two nodes that differ only in the stored order of their parameter
maps — the observable difference between two runs of the same parse
under different (unspecified) Go map iteration orders. -/
def NodePermOrder (n n' : Node) : Prop :=
  n.name = n'.name ∧ n.inParams.Perm n'.inParams ∧ n.outParams.Perm n'.outParams ∧
  n.localParams.Perm n'.localParams ∧ n.body = n'.body

/-- Filewise lifting of `NodePermOrder`. -/
def FilePermOrder (f f' : File) : Prop :=
  List.Forall₂ NodePermOrder f.nodes f'.nodes

/-- The parse of `node h(a: int; b: int) returns (c: int); let tel`,
with the insertion-order parameter lists. -/
def twoParamFile : File :=
  ⟨[⟨"h", [("a", .int), ("b", .int)], [("c", .int)], [], []⟩]⟩

/-- The same parse observed under the opposite iteration order of the
in-parameter map. -/
def twoParamFileSwapped : File :=
  ⟨[⟨"h", [("b", .int), ("a", .int)], [("c", .int)], [], []⟩]⟩

theorem lex_two_param_src :
    lexAll ("node h(a: int; b: int) returns (c: int); let tel".toList) 0 =
      .ok [⟨.keyword, "node"⟩, ⟨.ident, "h"⟩, ⟨.lparen, "("⟩, ⟨.ident, "a"⟩,
        ⟨.colon, ":"⟩, ⟨.keyword, "int"⟩, ⟨.semi, ";"⟩, ⟨.ident, "b"⟩, ⟨.colon, ":"⟩,
        ⟨.keyword, "int"⟩, ⟨.rparen, ")"⟩, ⟨.keyword, "returns"⟩, ⟨.lparen, "("⟩,
        ⟨.ident, "c"⟩, ⟨.colon, ":"⟩, ⟨.keyword, "int"⟩, ⟨.rparen, ")"⟩, ⟨.semi, ";"⟩,
        ⟨.keyword, "let"⟩, ⟨.keyword, "tel"⟩, ⟨.eof, ""⟩] := by
  simp [lexAll, breakOnQuote, keywords, isIdentChar, isWs, runBytes, Except.map]

theorem parse_two_param_src :
    ParseText ("node h(a: int; b: int) returns (c: int); let tel".toList) =
      .ok twoParamFile := by
  rw [ParseText, lex_two_param_src]
  exact pFile_single_node _ _ [] _
    (pNodeE_empty_body_parses "h"
      [⟨.ident, "a"⟩, ⟨.colon, ":"⟩, ⟨.keyword, "int"⟩, ⟨.semi, ";"⟩,
       ⟨.ident, "b"⟩, ⟨.colon, ":"⟩, ⟨.keyword, "int"⟩]
      [⟨.ident, "c"⟩, ⟨.colon, ":"⟩, ⟨.keyword, "int"⟩]
      [⟨.eof, ""⟩]
      [("a", .int), ("b", .int)] [("c", .int)]
      (pParamListE_two_int "a" "b" (by decide) ⟨.rparen, ")"⟩ _ (by simp) (by simp))
      (pParamListE_one_int "c" [] (by simp [mapLookup]) ⟨.rparen, ")"⟩ _ (by simp) (by simp))
      (by simp))

/-- Function-signature parameter names per emitted function, the
observable of the C8 counterexample model. -/
def moduleParamNames : Except PErr (List FuncDef × CState) → List (List String)
  | .error _ => []
  | .ok (fds, _) => fds.map (fun fd => fd.params.map Prod.fst)

/-- C8 counterexample: the source `node h(a: int; b: int) returns
(c: int); let tel` parses with a two-entry in-parameter map; two runs
that iterate that map in the two different orders render different
texts and emit functions with different parameter orders — so
"any two runs produce the same result" fails as stated. -/
theorem C8_cex_map_iteration_order :
    ParseText ("node h(a: int; b: int) returns (c: int); let tel".toList) =
      .ok twoParamFile ∧
    FilePermOrder twoParamFile twoParamFileSwapped ∧
    fileString twoParamFile ≠ fileString twoParamFileSwapped ∧
    Compile twoParamFile ≠ Compile twoParamFileSwapped := by
  refine ⟨parse_two_param_src, ?_, ?_, ?_⟩
  · refine List.Forall₂.cons ?_ List.Forall₂.nil
    refine ⟨rfl, ?_, .refl _, .refl _, rfl⟩
    exact List.Perm.swap _ _ _
  · decide
  · intro h
    have := congrArg moduleParamNames h
    simp [moduleParamNames, Compile, compileNodes, compileNode, compileAssigns,
      twoParamFile, twoParamFileSwapped, printDecl, cTyp] at this

/-- The fields of a node that rendering and lowering actually read
(`localParams` is read by neither). -/
def nodeKey (n : Node) : String × List (String × Ty) × List (String × Ty) × List Assign :=
  (n.name, n.inParams, n.outParams, n.body)

theorem perm_len_le_one_eq {α : Type} {l l' : List α} (h : l.Perm l') (hl : l.length ≤ 1) :
    l = l' := by
  cases l with
  | nil => exact (List.perm_nil.mp h.symm).symm
  | cons a l2 =>
    cases l2 with
    | nil => exact List.singleton_perm.mp h
    | cons b l3 => simp at hl

theorem nodeKey_of_perm_small {a b : Node} (h : NodePermOrder a b)
    (h1 : a.inParams.length ≤ 1) (h2 : a.outParams.length ≤ 1) :
    nodeKey a = nodeKey b := by
  obtain ⟨hn, hin, hout, hloc, hb⟩ := h
  have e2 := perm_len_le_one_eq hin h1
  have e3 := perm_len_le_one_eq hout h2
  simp [nodeKey, hn, e2, e3, hb]

theorem nodeString_congr {n n' : Node} (h : nodeKey n = nodeKey n') :
    nodeString n = nodeString n' := by
  have e1 : n.name = n'.name := congrArg (fun p => p.1) h
  have e2 : n.inParams = n'.inParams := congrArg (fun p => p.2.1) h
  have e3 : n.outParams = n'.outParams := congrArg (fun p => p.2.2.1) h
  have e4 : n.body = n'.body := congrArg (fun p => p.2.2.2) h
  simp [nodeString, e1, e2, e3, e4]

theorem compileNode_congr {n n' : Node} (h : nodeKey n = nodeKey n')
    (funcs : List String) (st : CState) :
    compileNode funcs st n = compileNode funcs st n' := by
  have e1 : n.name = n'.name := congrArg (fun p => p.1) h
  have e2 : n.inParams = n'.inParams := congrArg (fun p => p.2.1) h
  have e3 : n.outParams = n'.outParams := congrArg (fun p => p.2.2.1) h
  have e4 : n.body = n'.body := congrArg (fun p => p.2.2.2) h
  simp [compileNode, varsSeed, e1, e2, e3, e4]

theorem compileNodes_congr {ns ns' : List Node}
    (h : List.Forall₂ (fun a b => nodeKey a = nodeKey b) ns ns') :
    ∀ funcs st, compileNodes funcs st ns = compileNodes funcs st ns' := by
  induction h with
  | nil => intro funcs st; rfl
  | @cons a b l1 l2 hk hrest ih =>
    intro funcs st
    have en : a.name = b.name := congrArg (fun p => p.1) hk
    cases hcn : compileNode funcs st b with
    | error e => simp only [compileNodes, compileNode_congr hk funcs st, hcn]
    | ok p =>
      obtain ⟨fd, st1⟩ := p
      simp only [compileNodes, compileNode_congr hk funcs st, hcn]
      rw [en, ih]

theorem nodesString_congr {ns ns' : List Node}
    (h : List.Forall₂ (fun a b => nodeKey a = nodeKey b) ns ns') :
    ns.map nodeString = ns'.map nodeString := by
  induction h with
  | nil => rfl
  | cons hk hrest ih => simp [nodeString_congr hk, ih]

theorem forall₂_nodeKey {ns ns' : List Node}
    (h : List.Forall₂ NodePermOrder ns ns')
    (hs : ∀ n ∈ ns, n.inParams.length ≤ 1 ∧ n.outParams.length ≤ 1) :
    List.Forall₂ (fun a b => nodeKey a = nodeKey b) ns ns' := by
  induction h with
  | nil => exact .nil
  | @cons a b l1 l2 hab hrest ih =>
    refine .cons (nodeKey_of_perm_small hab (hs a (by simp)).1 (hs a (by simp)).2) (ih ?_)
    intro n hn
    exact hs n (List.mem_cons_of_mem _ hn)

/-- C8 (amended): parsing is a pure function of the input; rendering and
lowering are pure functions of the parsed File and of the Go map
iteration orders chosen for its parameter maps.  Whenever every in- and
out-parameter map has at most one entry, the iteration order cannot be
observed: any two runs produce the same AST rendering and the same
emitted module.  (With two or more entries the orders can differ between
runs, as the counterexample shows.) -/
theorem C8_deterministic_up_to_map_order (f f' : File)
    (hperm : FilePermOrder f f')
    (hsmall : ∀ n ∈ f.nodes, n.inParams.length ≤ 1 ∧ n.outParams.length ≤ 1) :
    fileString f = fileString f' ∧ Compile f = Compile f' := by
  have hkeys := forall₂_nodeKey hperm hsmall
  constructor
  · simp [fileString, nodesString_congr hkeys]
  · simp [Compile, compileNodes_congr hkeys]

/-- Witness for the amended C8: a file with singleton in/out maps and a
two-entry *local* map permuted — rendering and module agree. -/
theorem C8_witness :
    fileString ⟨[⟨"k", [("a", .int)], [("c", .int)], [("x", .int), ("y", .int)], []⟩]⟩ =
      fileString ⟨[⟨"k", [("a", .int)], [("c", .int)], [("y", .int), ("x", .int)], []⟩]⟩ ∧
    Compile ⟨[⟨"k", [("a", .int)], [("c", .int)], [("x", .int), ("y", .int)], []⟩]⟩ =
      Compile ⟨[⟨"k", [("a", .int)], [("c", .int)], [("y", .int), ("x", .int)], []⟩]⟩ :=
  C8_deterministic_up_to_map_order _ _
    (List.Forall₂.cons ⟨rfl, .refl _, .refl _, List.Perm.swap _ _ _, rfl⟩ List.Forall₂.nil)
    (by intro n hn; simp at hn; subst hn; constructor <;> simp)

/-! ## Claim C5: round-trip and the dropped `var` section. -/

/-- One `v: int` group followed by a trailing semicolon consumed by the
group loop, then a stopper that is not an identifier (the shape of a
`var` section before `let`). -/
theorem pParamListE_one_int_trailing_semi (v : String) (it2 : item) (rest : List item)
    (hi : it2.typ ≠ .ident) :
    pParamListE (⟨.ident, v⟩ :: ⟨.colon, ":"⟩ :: ⟨.keyword, "int"⟩ :: ⟨.semi, ";"⟩ ::
        it2 :: rest) [] =
      .ok ([(v, .int)], ⟨it2 :: rest, by simp⟩) := by
  rw [pParamListE]
  have h1 := pParamE_single_int v [] (by simp [mapLookup]) ⟨.semi, ";"⟩ (it2 :: rest) (by simp)
  simp only [List.nil_append] at h1
  rw [h1]
  simp only [acceptItemE_cons_pos .semi ";", pParamListE_no_ident it2 rest hi]

/-- The parse of `node f() returns (o: int); var x: int; let tel`: one
local parameter `x: int`. -/
def varFile : File := ⟨[⟨"f", [], [("o", .int)], [("x", .int)], []⟩]⟩

/-- What reparsing the rendering of `varFile` yields: the `var` section
is gone. -/
def noVarFile : File := ⟨[⟨"f", [], [("o", .int)], [], []⟩]⟩

theorem lex_var_src :
    lexAll ("node f() returns (o: int); var x: int; let tel".toList) 0 =
      .ok [⟨.keyword, "node"⟩, ⟨.ident, "f"⟩, ⟨.lparen, "("⟩, ⟨.rparen, ")"⟩,
        ⟨.keyword, "returns"⟩, ⟨.lparen, "("⟩, ⟨.ident, "o"⟩, ⟨.colon, ":"⟩,
        ⟨.keyword, "int"⟩, ⟨.rparen, ")"⟩, ⟨.semi, ";"⟩, ⟨.keyword, "var"⟩,
        ⟨.ident, "x"⟩, ⟨.colon, ":"⟩, ⟨.keyword, "int"⟩, ⟨.semi, ";"⟩,
        ⟨.keyword, "let"⟩, ⟨.keyword, "tel"⟩, ⟨.eof, ""⟩] := by
  simp [lexAll, breakOnQuote, keywords, isIdentChar, isWs, runBytes, Except.map]

theorem pNodeE_var_src :
    pNodeE [⟨.keyword, "node"⟩, ⟨.ident, "f"⟩, ⟨.lparen, "("⟩, ⟨.rparen, ")"⟩,
        ⟨.keyword, "returns"⟩, ⟨.lparen, "("⟩, ⟨.ident, "o"⟩, ⟨.colon, ":"⟩,
        ⟨.keyword, "int"⟩, ⟨.rparen, ")"⟩, ⟨.semi, ";"⟩, ⟨.keyword, "var"⟩,
        ⟨.ident, "x"⟩, ⟨.colon, ":"⟩, ⟨.keyword, "int"⟩, ⟨.semi, ";"⟩,
        ⟨.keyword, "let"⟩, ⟨.keyword, "tel"⟩, ⟨.eof, ""⟩] =
      .ok (⟨"f", [], [("o", .int)], [("x", .int)], []⟩, ⟨[⟨.eof, ""⟩], by simp⟩) := by
  rw [pNodeE]
  have hOut := pParamListE_one_int "o" [] (by simp [mapLookup]) ⟨.rparen, ")"⟩
    [⟨.semi, ";"⟩, ⟨.keyword, "var"⟩, ⟨.ident, "x"⟩, ⟨.colon, ":"⟩, ⟨.keyword, "int"⟩,
     ⟨.semi, ";"⟩, ⟨.keyword, "let"⟩, ⟨.keyword, "tel"⟩, ⟨.eof, ""⟩] (by simp) (by simp)
  simp only [List.nil_append] at hOut
  have hVar := pParamListE_one_int_trailing_semi "x" ⟨.keyword, "let"⟩
    [⟨.keyword, "tel"⟩, ⟨.eof, ""⟩] (by simp)
  simp only [acceptKeywordE_pos "node", acceptItemE_cons_pos .ident "f",
    acceptItemE_cons_pos .lparen "(",
    pParamListE_no_ident ⟨.rparen, ")"⟩ _ (by simp),
    acceptItemE_cons_pos .rparen ")", acceptKeywordE_pos "returns", hOut,
    List.isEmpty_cons, Bool.false_eq_true, if_false,
    acceptItemE_cons_pos .semi ";", acceptKeywordE_pos "var", hVar,
    pNodeFinish, acceptKeywordE_pos "let",
    pAssignListE_no_start ⟨.keyword, "tel"⟩ _ (by simp) (by simp),
    acceptKeywordE_pos "tel"]

theorem lex_rendered_var_src :
    lexAll ("node f () returns (o: int);\nlet\n\ntel\n".toList) 0 =
      .ok [⟨.keyword, "node"⟩, ⟨.ident, "f"⟩, ⟨.lparen, "("⟩, ⟨.rparen, ")"⟩,
        ⟨.keyword, "returns"⟩, ⟨.lparen, "("⟩, ⟨.ident, "o"⟩, ⟨.colon, ":"⟩,
        ⟨.keyword, "int"⟩, ⟨.rparen, ")"⟩, ⟨.semi, ";"⟩,
        ⟨.keyword, "let"⟩, ⟨.keyword, "tel"⟩, ⟨.eof, ""⟩] := by
  simp [lexAll, breakOnQuote, keywords, isIdentChar, isWs, runBytes, Except.map]

/-- C5: the testable round-trip property fails on local parameters —
`Node.String` never renders the `var` section, so reparsing the
rendering of a parsed file with a local parameter yields a file whose
local-parameter associations are empty (everything else survives). -/
theorem C5_rendering_drops_local_params :
    ParseText ("node f() returns (o: int); var x: int; let tel".toList) = .ok varFile ∧
    varFile.nodes.map Node.localParams = [[("x", .int)]] ∧
    fileString varFile = "node f () returns (o: int);\nlet\n\ntel\n" ∧
    ParseText ((fileString varFile).toList) = .ok noVarFile ∧
    noVarFile.nodes.map Node.localParams = [[]] ∧
    varFile ≠ noVarFile := by
  have hrender : fileString varFile = "node f () returns (o: int);\nlet\n\ntel\n" := rfl
  refine ⟨?_, rfl, hrender, ?_, rfl, ?_⟩
  · rw [ParseText, lex_var_src]
    exact pFile_single_node _ _ [] _ pNodeE_var_src
  · rw [hrender, ParseText, lex_rendered_var_src]
    exact pFile_single_node _ _ [] _
      (pNodeE_empty_body_parses "f" []
        [⟨.ident, "o"⟩, ⟨.colon, ":"⟩, ⟨.keyword, "int"⟩] [⟨.eof, ""⟩]
        [] [("o", .int)]
        (pParamListE_no_ident ⟨.rparen, ")"⟩ _ (by simp) [])
        (pParamListE_one_int "o" [] (by simp [mapLookup]) ⟨.rparen, ")"⟩ _ (by simp) (by simp))
        (by simp))
  · intro h
    have := congrArg (fun f => f.nodes.map Node.localParams) h
    simp [varFile, noVarFile] at this
